import Mathlib

/-!
Verification development for the xml-ftp-to-millennium repository
(files receive.py and send.py).

The Python code is shallowly embedded as pure Lean functions.  External
effects (the FTP server, the local filesystem, timing) are made explicit:

* commands issued over the control/data channels are collected into a
  trace of `Cmd` values, in issue order;
* the outcome of each fallible external operation is supplied by an
  environment record (an oracle), one field per operation, so a theorem
  quantifying over the environment covers every execution of the code;
* the remote and local filesystems are association lists from path to
  byte size;
* delays passed to time.sleep are collected into a list (seconds for
  receive.py, milliseconds for send.py).

Machine integers do not occur (Python integers are unbounded); sizes and
counters are `Nat`.
-/

namespace XmlFtp

/-- Data-channel protection level: `P` (protected) or `C` (clear),
as passed to configurar_transferencia in both files. -/
inductive Prot
| P
| C
deriving DecidableEq

/-- Wire commands issued against the remote server, in issue order.
Each constructor corresponds to one ftplib call in the source. -/
inductive Cmd
| connect
| auth
| login
| pbsz
| protP
| protC
| pasvMode (passive : Bool)
| typeI
| pwdCmd
| cwd (p : String)
| mkd (p : String)
| stor (p : String)
| retr (p : String)
| renameCmd (a b : String)
| sizeQ (p : String)
| dele (p : String)
| noop
| closeCmd
| quitCmd
deriving DecidableEq

/-! ## Configuration constants (receive.py lines 37-52, send.py lines 78-93) -/

def PASTA_REMOTA_ORIGEM : String := "/XML/CTE"

def PASTA_REMOTA_ENVIADO : String := "/XML/CTES_ENVIADOS"

def MAX_TENTATIVAS_POR_ARQUIVO : Nat := 5

def BACKOFF_INICIAL_S : Nat := 1

def DESTINO_REMOTO : String := "/XML/CTE"

def MAX_REPROCESSOS : Nat := 3

/-- send.py lines 90-93: only PROT P combinations, passive then active. -/
def MODOS_TRANSFERENCIA : List (Prot × Bool) := [(Prot.P, true), (Prot.P, false)]

/-- receive.py lines 103-108: the four combinations tried by conectar_ftp,
in preference order. -/
def modosReceive : List (Prot × Bool) :=
  [(Prot.P, true), (Prot.P, false), (Prot.C, true), (Prot.C, false)]

/-! ## Relocation step of receive.py (tentar_processar_arquivo, lines 394-452)

One attempt's "move on the server" step: RNFR/RNTO, then on failure the
fallback STOR -> SIZE -> DELE.  The environment fixes the outcome of each
external operation of this step. -/

/-- Result of an ftplib operation guarded by `except error_perm` in the
source: success, an error_perm, or any other exception. -/
inductive OpRes
| ok
| errPerm
| outro
deriving DecidableEq

/-- Result of storbinary as distinguished by receive.py lines 438-444:
success, an ssl.SSLError, or any other exception. -/
inductive StorRes
| ok
| sslErr
| outro
deriving DecidableEq

/-- Commands that assegurar_diretorio_remoto (receive.py lines 163-215) may
issue: pwd, cwd and mkd only — it contains no delete. -/
inductive DirCmd
| dcwd (p : String)
| dmkd (p : String)
| dpwd
deriving DecidableEq

def DirCmd.toCmd : DirCmd → Cmd
| DirCmd.dcwd p => Cmd.cwd p
| DirCmd.dmkd p => Cmd.mkd p
| DirCmd.dpwd => Cmd.pwdCmd

/-- Oracle for one execution of the move step (receive.py lines 394-452). -/
structure MoveEnv where
  /-- outcome of ftp.rename (line 404) -/
  renameRes : OpRes
  /-- SIZE of the destination queried after a successful rename (line 405) -/
  sizeAfterRename : Option Nat
  /-- whether ftp.cwd(PASTA_REMOTA_ENVIADO) succeeds (line 417) -/
  cwdEnviadoOk : Bool
  /-- whether assegurar_diretorio_remoto succeeds when invoked (line 419) -/
  assegurarOk : Bool
  /-- commands issued by assegurar_diretorio_remoto when invoked -/
  assegurarCmds : List DirCmd
  /-- outcome of ftp.storbinary (line 423) -/
  storRes : StorRes
  /-- SIZE of the destination queried after the fallback STOR (line 425) -/
  sizeRes : Option Nat
  /-- outcome of ftp.delete on the absolute origin path (line 428) -/
  dele1 : OpRes
  /-- outcome of ftp.delete on the bare name (line 431) -/
  dele2 : OpRes
deriving DecidableEq

def destinoAbs (nome : String) : String := PASTA_REMOTA_ENVIADO ++ "/" ++ nome

def origemAbs (nome : String) : String := PASTA_REMOTA_ORIGEM ++ "/" ++ nome

/-- receive.py lines 412-444: the fallback STOR -> SIZE -> DELE block.
Returns the value of move_ok and the trace of commands issued by the block.
The delete of the origin is attempted only inside the branch where
remoto_confere_tamanho returned True; a first delete failing with
error_perm is retried on the bare name with every outcome ignored, while
a first delete failing otherwise escapes to the outer except and makes
the whole attempt fail. -/
def fallbackStor (nome : String) (tamLocal : Nat) (env : MoveEnv) : Bool × List Cmd :=
  let destino := destinoAbs nome
  let dirTrace :=
    if env.cwdEnviadoOk then [Cmd.cwd PASTA_REMOTA_ENVIADO]
    else Cmd.cwd PASTA_REMOTA_ENVIADO :: env.assegurarCmds.map DirCmd.toCmd
  if env.cwdEnviadoOk = false ∧ env.assegurarOk = false then
    (false, dirTrace)
  else
    let t1 := dirTrace ++ [Cmd.protP, Cmd.typeI, Cmd.stor destino]
    match env.storRes with
    | StorRes.sslErr => (false, t1 ++ [Cmd.protP, Cmd.typeI])
    | StorRes.outro => (false, t1)
    | StorRes.ok =>
      let t2 := t1 ++ [Cmd.sizeQ destino]
      if env.sizeRes = some tamLocal then
        match env.dele1 with
        | OpRes.ok => (true, t2 ++ [Cmd.dele (origemAbs nome)])
        | OpRes.errPerm => (true, t2 ++ [Cmd.dele (origemAbs nome), Cmd.dele nome])
        | OpRes.outro => (false, t2 ++ [Cmd.dele (origemAbs nome)])
      else (false, t2)

/-- receive.py lines 394-452: the whole move-on-the-server step of one
attempt — RNFR/RNTO with size verification, falling back to
`fallbackStor` when the rename path does not confirm. -/
def moveStep (nome : String) (tamLocal : Nat) (env : MoveEnv) : Bool × List Cmd :=
  let destino := destinoAbs nome
  let t0 := [Cmd.cwd PASTA_REMOTA_ORIGEM, Cmd.renameCmd nome destino]
  match env.renameRes with
  | OpRes.ok =>
    let t1 := t0 ++ [Cmd.sizeQ destino]
    if env.sizeAfterRename = some tamLocal then (true, t1)
    else
      let r := fallbackStor nome tamLocal env
      (r.1, t1 ++ r.2)
  | OpRes.errPerm =>
    let r := fallbackStor nome tamLocal env
    (r.1, t0 ++ r.2)
  | OpRes.outro =>
    let r := fallbackStor nome tamLocal env
    (r.1, t0 ++ r.2)

/-- In trace `l`, every issued delete is preceded by a size query on `d`. -/
def sizeBeforeDele (d : String) (l : List Cmd) : Prop :=
  ∀ (i : Nat) (q : String),
    l[i]? = some (Cmd.dele q) → ∃ j : Nat, j < i ∧ l[j]? = some (Cmd.sizeQ d)

lemma mem_of_getElemQ {α : Type} (l : List α) (i : Nat) (x : α)
    (h : l[i]? = some x) : x ∈ l := by
  induction l generalizing i with
  | nil => simp at h
  | cons a t ih =>
    cases i with
    | zero =>
      simp only [List.getElem?_cons_zero, Option.some_inj] at h
      simp [h]
    | succ j =>
      simp only [List.getElem?_cons_succ] at h
      exact List.mem_cons_of_mem a (ih j h)

lemma noDele_map_dir (cs : List DirCmd) (q : String) :
    Cmd.dele q ∉ cs.map DirCmd.toCmd := by
  intro h
  rcases List.mem_map.mp h with ⟨c, _, hc⟩
  cases c <;> simp [DirCmd.toCmd] at hc

lemma get_append_middle (t1 t2 : List Cmd) (x : Cmd) :
    (t1 ++ x :: t2)[t1.length]? = some x := by
  rw [List.getElem?_append_right (Nat.le_refl _)]
  simp

lemma sizeBeforeDele_append (d : String) (t1 t2 : List Cmd)
    (h1 : ∀ q, Cmd.dele q ∉ t1) : sizeBeforeDele d (t1 ++ Cmd.sizeQ d :: t2) := by
  intro i q hi
  refine ⟨t1.length, ?_, get_append_middle t1 t2 _⟩
  rcases Nat.lt_trichotomy i t1.length with hlt | heq | hgt
  · exfalso
    rw [List.getElem?_append_left hlt] at hi
    exact h1 q (mem_of_getElemQ t1 i _ hi)
  · exfalso
    subst heq
    rw [get_append_middle t1 t2 _] at hi
    cases hi
  · exact hgt

lemma sizeBeforeDele_of_noDele (d : String) (l : List Cmd)
    (h : ∀ q, Cmd.dele q ∉ l) : sizeBeforeDele d l := by
  intro i q hi
  exact absurd (mem_of_getElemQ l i _ hi) (h q)

/-- Commands the fallback issues while entering/ensuring the destination
directory (receive.py lines 416-419). -/
def fbDir (env : MoveEnv) : List Cmd :=
  if env.cwdEnviadoOk then [Cmd.cwd PASTA_REMOTA_ENVIADO]
  else Cmd.cwd PASTA_REMOTA_ENVIADO :: env.assegurarCmds.map DirCmd.toCmd

/-- Commands the fallback issues before the size query: directory entry,
re-asserted protection and binary mode, and the STOR itself. -/
def fbPre (nome : String) (env : MoveEnv) : List Cmd :=
  fbDir env ++ [Cmd.protP, Cmd.typeI, Cmd.stor (destinoAbs nome)]

lemma noDele_fbDir (env : MoveEnv) (q : String) : Cmd.dele q ∉ fbDir env := by
  unfold fbDir
  split
  · simp
  · intro h
    rcases List.mem_cons.mp h with h1 | h2
    · cases h1
    · exact noDele_map_dir _ _ h2

lemma noDele_fbPre (nome : String) (env : MoveEnv) (q : String) :
    Cmd.dele q ∉ fbPre nome env := by
  intro h
  rcases List.mem_append.mp h with h1 | h2
  · exact noDele_fbDir env q h1
  · simp at h2

/-- Normal form of `fallbackStor`, grouping the trace around the size
query on the destination. -/
lemma fallbackStor_eq (nome : String) (tam : Nat) (env : MoveEnv) :
    fallbackStor nome tam env =
      if env.cwdEnviadoOk = false ∧ env.assegurarOk = false then
        (false, fbDir env)
      else
        match env.storRes with
        | StorRes.sslErr => (false, fbPre nome env ++ [Cmd.protP, Cmd.typeI])
        | StorRes.outro => (false, fbPre nome env)
        | StorRes.ok =>
          if env.sizeRes = some tam then
            match env.dele1 with
            | OpRes.ok =>
                (true, fbPre nome env ++
                  Cmd.sizeQ (destinoAbs nome) :: [Cmd.dele (origemAbs nome)])
            | OpRes.errPerm =>
                (true, fbPre nome env ++
                  Cmd.sizeQ (destinoAbs nome) ::
                    [Cmd.dele (origemAbs nome), Cmd.dele nome])
            | OpRes.outro =>
                (false, fbPre nome env ++
                  Cmd.sizeQ (destinoAbs nome) :: [Cmd.dele (origemAbs nome)])
          else (false, fbPre nome env ++ [Cmd.sizeQ (destinoAbs nome)]) := by
  rcases env with ⟨rr, sar, cwdOk, asgOk, asgCmds, sr, szr, d1, d2⟩
  cases sr <;> by_cases hsz : szr = some tam <;> cases d1 <;>
    simp [fallbackStor, fbPre, fbDir, hsz, List.append_assoc]

/-- Either the fallback issues no delete at all, or the destination size
came back equal to the cached size and the trace splits around that size
query with every delete strictly after it. -/
lemma fallback_trace_cases (nome : String) (tam : Nat) (env : MoveEnv) :
    (∀ q, Cmd.dele q ∉ (fallbackStor nome tam env).2) ∨
      (env.sizeRes = some tam ∧ ∃ tail,
        (fallbackStor nome tam env).2 =
          fbPre nome env ++ Cmd.sizeQ (destinoAbs nome) :: tail) := by
  rw [fallbackStor_eq]
  split
  · left
    intro q
    exact noDele_fbDir env q
  · split
    · left
      intro q h
      rcases List.mem_append.mp h with h1 | h2
      · exact noDele_fbPre nome env q h1
      · simp at h2
    · left
      intro q h
      exact noDele_fbPre nome env q h
    · split
      · rename_i hsz
        split
        · exact Or.inr ⟨hsz, _, rfl⟩
        · exact Or.inr ⟨hsz, _, rfl⟩
        · exact Or.inr ⟨hsz, _, rfl⟩
      · left
        intro q h
        rcases List.mem_append.mp h with h1 | h2
        · exact noDele_fbPre nome env q h1
        · simp at h2

/-- Normal form of `moveStep`: the rename prelude followed, when the
rename path does not confirm, by the fallback trace. -/
lemma moveStep_eq (nome : String) (tam : Nat) (env : MoveEnv) :
    moveStep nome tam env =
      if env.renameRes = OpRes.ok ∧ env.sizeAfterRename = some tam then
        (true, [Cmd.cwd PASTA_REMOTA_ORIGEM, Cmd.renameCmd nome (destinoAbs nome),
          Cmd.sizeQ (destinoAbs nome)])
      else if env.renameRes = OpRes.ok then
        ((fallbackStor nome tam env).1,
          [Cmd.cwd PASTA_REMOTA_ORIGEM, Cmd.renameCmd nome (destinoAbs nome),
            Cmd.sizeQ (destinoAbs nome)] ++ (fallbackStor nome tam env).2)
      else
        ((fallbackStor nome tam env).1,
          [Cmd.cwd PASTA_REMOTA_ORIGEM, Cmd.renameCmd nome (destinoAbs nome)] ++
            (fallbackStor nome tam env).2) := by
  rcases env with ⟨rr, sar, cwdOk, asgOk, asgCmds, sr, szr, d1, d2⟩
  cases rr <;> by_cases hsar : sar = some tam <;>
    simp [moveStep, hsar, List.append_assoc]

/-- C1: In the store-copy fallback of receive.py (lines 412-437), a delete
of the origin copy is issued only when the size query on the destination
returned a size equal to the cached local size, and in the command trace
every delete is strictly preceded by that size query; if the destination
size is never verified equal to the cached size, no delete is ever issued. -/
theorem c1_delete_only_after_size_verified (nome : String) (tamLocal : Nat)
    (env : MoveEnv) (q : String)
    (h : Cmd.dele q ∈ (moveStep nome tamLocal env).2) :
    env.sizeRes = some tamLocal ∧
      sizeBeforeDele (destinoAbs nome) (moveStep nome tamLocal env).2 := by
  rw [moveStep_eq] at h ⊢
  rcases fallback_trace_cases nome tamLocal env with hclean | ⟨hsz, tail, htail⟩
  · exfalso
    revert h
    split
    · intro h
      simp at h
    · split
      · intro h
        rcases List.mem_append.mp h with h1 | h2
        · simp at h1
        · exact hclean q h2
      · intro h
        rcases List.mem_append.mp h with h1 | h2
        · simp at h1
        · exact hclean q h2
  · refine ⟨hsz, ?_⟩
    split
    · exact sizeBeforeDele_of_noDele _ _ (by intro r hr; simp at hr)
    · split
      · rw [htail, ← List.append_assoc]
        refine sizeBeforeDele_append _ _ _ ?_
        intro r hr
        rcases List.mem_append.mp hr with h1 | h2
        · simp at h1
        · exact noDele_fbPre nome env r h2
      · rw [htail, ← List.append_assoc]
        refine sizeBeforeDele_append _ _ _ ?_
        intro r hr
        rcases List.mem_append.mp hr with h1 | h2
        · simp at h1
        · exact noDele_fbPre nome env r h2

/-- Concrete environment for the C1 witness: rename refused, fallback
runs fully, destination size query returns the cached size 7. -/
def envC1 : MoveEnv :=
  { renameRes := OpRes.errPerm
    sizeAfterRename := none
    cwdEnviadoOk := true
    assegurarOk := true
    assegurarCmds := []
    storRes := StorRes.ok
    sizeRes := some 7
    dele1 := OpRes.ok
    dele2 := OpRes.ok }

/-- Witness for C1: in a concrete fallback run the delete is issued and
the size query indeed returned the cached size. -/
theorem c1_delete_only_after_size_verified_witness :
    Cmd.dele (origemAbs "a.xml") ∈ (moveStep "a.xml" 7 envC1).2 ∧
      envC1.sizeRes = some 7 := by
  refine ⟨by decide, ?_⟩
  exact (c1_delete_only_after_size_verified "a.xml" 7 envC1
    (origemAbs "a.xml") (by decide)).1

/-- Concrete environment for the C5 counterexample: the fallback store
succeeds and is size-verified, but the delete of the origin fails with a
non-permission error (receive.py catches only error_perm at line 429, so
any other delete failure escapes to the outer except at line 442). -/
def envC5 : MoveEnv :=
  { renameRes := OpRes.errPerm
    sizeAfterRename := none
    cwdEnviadoOk := true
    assegurarOk := true
    assegurarCmds := []
    storRes := StorRes.ok
    sizeRes := some 7
    dele1 := OpRes.outro
    dele2 := OpRes.ok }

/-- C5 counterexample: after the fallback store has been size-verified,
the delete of the origin fails (with a non-permission error) — the delete
was issued — yet the attempt outcome is failure, not success, refuting
the claim that a failed post-fallback delete still yields success. -/
theorem c5_counterexample :
    envC5.storRes = StorRes.ok ∧ envC5.sizeRes = some 7 ∧
      envC5.dele1 ≠ OpRes.ok ∧
      Cmd.dele (origemAbs "a.xml") ∈ (moveStep "a.xml" 7 envC5).2 ∧
      (moveStep "a.xml" 7 envC5).1 = false := by
  decide

/-- C5 (amended): if the post-fallback delete of the size-verified origin
fails with a permission error, the bare-name retry delete is attempted
with every outcome ignored and the relocation attempt is still reported
successful.  (A delete failure of any other class instead fails the whole
attempt — see the counterexample — and no outcome detail records the
dangling origin: the step returns only a boolean.) -/
theorem c5_amended_perm_delete_failure_still_success (nome : String) (tam : Nat)
    (env : MoveEnv)
    (hdir : ¬(env.cwdEnviadoOk = false ∧ env.assegurarOk = false))
    (hstor : env.storRes = StorRes.ok) (hsz : env.sizeRes = some tam)
    (hd : env.dele1 = OpRes.errPerm) :
    (fallbackStor nome tam env).1 = true := by
  rw [fallbackStor_eq, if_neg hdir, hstor]
  simp [hsz, hd]

/-- Concrete environment for the C5 witness: delete fails with
error_perm and the bare-name retry also fails. -/
def envC5w : MoveEnv :=
  { envC5 with dele1 := OpRes.errPerm, dele2 := OpRes.outro }

theorem c5_amended_witness :
    envC5w.dele1 = OpRes.errPerm ∧ (fallbackStor "a.xml" 7 envC5w).1 = true := by
  refine ⟨by decide, ?_⟩
  exact c5_amended_perm_delete_failure_still_success "a.xml" 7 envC5w
    (by decide) (by decide) (by decide) (by decide)

/-! ## Strict batch loop of receive.py (main, lines 491-513)

The per-item loop of main: for each item in order, garantir_conexao then
tentar_processar_arquivo; on the first item that fails, the run exits with
status 2; if every item succeeds the run exits with status 0. -/

/-- receive.py lines 493-513.  `conn idx` says whether garantir_conexao
returns a live session before the item at 1-based position `idx`;
`res idx` says whether tentar_processar_arquivo succeeds for that item.
Returns the list of attempted items in attempt order, each paired with
its delivery flag, and the exit status (0 or 2). -/
def strictRun (conn res : Nat → Bool) : List String → Nat → List (String × Bool) × Nat
  | [], _ => ([], 0)
  | nome :: rest, idx =>
    if conn idx = false then ([], 2)
    else if res idx then
      let r := strictRun conn res rest (idx + 1)
      ((nome, true) :: r.1, r.2)
    else ([(nome, false)], 2)

lemma strictRun_first_failure (conn res : Nat → Bool) (pre : List String)
    (x : String) (post : List String) (s : Nat)
    (hc : ∀ i, conn i = true)
    (hp : ∀ j, j < pre.length → res (s + j) = true)
    (hx : res (s + pre.length) = false) :
    strictRun conn res (pre ++ x :: post) s =
      (pre.map (fun nm => (nm, true)) ++ [(x, false)], 2) := by
  induction pre generalizing s with
  | nil =>
    have hx0 : res s = false := by simpa using hx
    simp [strictRun, hc s, hx0]
  | cons a t ih =>
    have h0 : res s = true := by simpa using hp 0 (Nat.succ_pos _)
    have ht : strictRun conn res (t ++ x :: post) (s + 1) =
        (t.map (fun nm => (nm, true)) ++ [(x, false)], 2) := by
      refine ih (s + 1) ?_ ?_
      · intro j hj
        have := hp (j + 1) (Nat.succ_lt_succ hj)
        simpa [Nat.add_comm, Nat.add_assoc, Nat.add_left_comm] using this
      · have := hx
        simpa [Nat.add_comm, Nat.add_assoc, Nat.add_left_comm] using this
    simp [strictRun, hc s, h0, ht]

lemma strictRun_all_success (conn res : Nat → Bool) (items : List String) (s : Nat)
    (hc : ∀ i, conn i = true)
    (hall : ∀ j, j < items.length → res (s + j) = true) :
    strictRun conn res items s = (items.map (fun nm => (nm, true)), 0) := by
  induction items generalizing s with
  | nil => simp [strictRun]
  | cons a t ih =>
    have h0 : res s = true := by simpa using hall 0 (Nat.succ_pos _)
    have ht : strictRun conn res t (s + 1) = (t.map (fun nm => (nm, true)), 0) := by
      refine ih (s + 1) ?_
      intro j hj
      have := hall (j + 1) (Nat.succ_lt_succ hj)
      simpa [Nat.add_comm, Nat.add_assoc, Nat.add_left_comm] using this
    simp [strictRun, hc s, h0, ht]

lemma strictRun_exit_zero (conn res : Nat → Bool) (items : List String) (s : Nat)
    (hc : ∀ i, conn i = true)
    (h0 : (strictRun conn res items s).2 = 0) :
    ∀ j, j < items.length → res (s + j) = true := by
  induction items generalizing s with
  | nil => intro j hj; cases hj
  | cons a t ih =>
    by_cases hr : res s = true
    · intro j hj
      cases j with
      | zero => simpa using hr
      | succ k =>
        have h0t : (strictRun conn res t (s + 1)).2 = 0 := by
          have := h0
          simpa [strictRun, hc s, hr] using this
        have := ih (s + 1) h0t k (Nat.lt_of_succ_lt_succ hj)
        simpa [Nat.add_comm, Nat.add_assoc, Nat.add_left_comm] using this
    · exfalso
      have : (strictRun conn res (a :: t) s).2 = 2 := by
        simp [strictRun, hc s, hr]
      rw [this] at h0
      cases h0

/-- C2: Under the strict policy (receive.py main), with the control
connection maintained throughout, if the items at positions 1..k-1
succeed and the item at position k fails permanently, then the attempt
trace is exactly the first k-1 items delivered in order followed by the
failed k-th item, nothing after position k is ever attempted, and the run
exits with status 2; moreover the success exit status 0 is reached
exactly when every item in the batch is delivered. -/
theorem c2_strict_abort (conn res : Nat → Bool) (pre : List String) (x : String)
    (post : List String)
    (hc : ∀ i, conn i = true)
    (hp : ∀ j, j < pre.length → res (1 + j) = true)
    (hx : res (1 + pre.length) = false) :
    strictRun conn res (pre ++ x :: post) 1 =
        (pre.map (fun nm => (nm, true)) ++ [(x, false)], 2) ∧
      ∀ items : List String,
        ((strictRun conn res items 1).2 = 0 ↔
          strictRun conn res items 1 = (items.map (fun nm => (nm, true)), 0)) := by
  refine ⟨strictRun_first_failure conn res pre x post 1 hc hp hx, ?_⟩
  intro items
  constructor
  · intro h0
    exact strictRun_all_success conn res items 1 hc
      (strictRun_exit_zero conn res items 1 hc h0)
  · intro heq
    rw [heq]

theorem c2_strict_abort_witness :
    strictRun (fun _ => true) (fun i => i != 2) (["a.xml"] ++ "b.xml" :: ["c.xml"]) 1 =
      ([("a.xml", true), ("b.xml", false)], 2) := by
  exact (c2_strict_abort (fun _ => true) (fun i => i != 2) ["a.xml"] "b.xml" ["c.xml"]
    (fun _ => rfl) (by decide) (by decide)).1

/-! ## Requeue batch loop of send.py (main, lines 722-785)

The driver: a deque of items is processed in lotes of at most 100; each
item's pass increments its personal counter; a failed item is re-appended
to the tail while the counter is below MAX_REPROCESSOS and recorded as
failed when the counter reaches it.  The outcome of enviar_para_ftp for a
given item on its t-th pass is supplied by the oracle `res item t`. -/

/-- Status of one enviar_para_ftp result as consumed by the driver loop. -/
inductive SStatus
| sucesso
| ignorado
| falha
deriving DecidableEq

/-- One entry of relatorio_envios, reduced to the fields the claims are
about: the item, its final status and its recorded pass count. -/
structure SRecord where
  item : String
  status : SStatus
  tentativas : Nat
deriving DecidableEq

/-- Driver-loop state: the work queue (fila), the per-item pass counters
(tentativas_por_arquivo), the report (relatorio_envios), and the trace of
send invocations as (item, pass number) pairs. -/
structure RState where
  fila : List String
  tent : String → Nat
  records : List SRecord
  trace : List (String × Nat)

/-- send.py lines 734-783: handle one item of the current lote.  The
counter is incremented first; on sucesso or ignorado a record carrying
the pass count is appended; on falha the item is re-appended to the tail
of fila if the count is still below the cap, and recorded as failed
otherwise. -/
def processItem (res : String → Nat → SStatus) (cap : Nat)
    (st : RState) (item : String) : RState :=
  let t := st.tent item + 1
  let tent2 := fun j => if j = item then t else st.tent j
  let tr := st.trace ++ [(item, t)]
  match res item t with
  | SStatus.sucesso =>
      ⟨st.fila, tent2, st.records ++ [⟨item, SStatus.sucesso, t⟩], tr⟩
  | SStatus.ignorado =>
      ⟨st.fila, tent2, st.records ++ [⟨item, SStatus.ignorado, t⟩], tr⟩
  | SStatus.falha =>
      if t < cap then ⟨st.fila ++ [item], tent2, st.records, tr⟩
      else ⟨st.fila, tent2, st.records ++ [⟨item, SStatus.falha, t⟩], tr⟩

/-- send.py lines 727-785: the outer while-loop.  Each iteration pops a
lote of at most 100 items off the front of the queue and folds
`processItem` over it; requeued items go to the queue's tail.  `fuel`
bounds the number of outer iterations; `runQueue_drains` shows that
cap * (number of items) iterations always suffice. -/
def runQueue (res : String → Nat → SStatus) (cap : Nat) :
    Nat → RState → RState
  | 0, st => st
  | fuel + 1, st =>
    match st.fila with
    | [] => st
    | _ :: _ =>
      runQueue res cap fuel
        ((st.fila.take 100).foldl (processItem res cap)
          ⟨st.fila.drop 100, st.tent, st.records, st.trace⟩)

/-- Initial driver state for a candidate list (send.py line 722-724). -/
def initState (items : List String) : RState :=
  ⟨items, fun _ => 0, [], []⟩

/-- Termination measure: remaining passes over the whole queue. -/
def mu (cap : Nat) (st : RState) : Nat :=
  (st.fila.map (fun i => cap - st.tent i)).sum

lemma processItem_sucesso (res : String → Nat → SStatus) (cap : Nat)
    (st : RState) (a : String)
    (hres : res a (st.tent a + 1) = SStatus.sucesso) :
    processItem res cap st a =
      ⟨st.fila, fun j => if j = a then st.tent a + 1 else st.tent j,
        st.records ++ [⟨a, SStatus.sucesso, st.tent a + 1⟩],
        st.trace ++ [(a, st.tent a + 1)]⟩ := by
  simp [processItem, hres]

lemma processItem_ignorado (res : String → Nat → SStatus) (cap : Nat)
    (st : RState) (a : String)
    (hres : res a (st.tent a + 1) = SStatus.ignorado) :
    processItem res cap st a =
      ⟨st.fila, fun j => if j = a then st.tent a + 1 else st.tent j,
        st.records ++ [⟨a, SStatus.ignorado, st.tent a + 1⟩],
        st.trace ++ [(a, st.tent a + 1)]⟩ := by
  simp [processItem, hres]

lemma processItem_falha_lt (res : String → Nat → SStatus) (cap : Nat)
    (st : RState) (a : String)
    (hres : res a (st.tent a + 1) = SStatus.falha)
    (hlt : st.tent a + 1 < cap) :
    processItem res cap st a =
      ⟨st.fila ++ [a], fun j => if j = a then st.tent a + 1 else st.tent j,
        st.records, st.trace ++ [(a, st.tent a + 1)]⟩ := by
  simp [processItem, hres, hlt]

lemma processItem_falha_ge (res : String → Nat → SStatus) (cap : Nat)
    (st : RState) (a : String)
    (hres : res a (st.tent a + 1) = SStatus.falha)
    (hge : ¬ st.tent a + 1 < cap) :
    processItem res cap st a =
      ⟨st.fila, fun j => if j = a then st.tent a + 1 else st.tent j,
        st.records ++ [⟨a, SStatus.falha, st.tent a + 1⟩],
        st.trace ++ [(a, st.tent a + 1)]⟩ := by
  simp [processItem, hres, hge]

lemma processItem_fields (res : String → Nat → SStatus) (cap : Nat)
    (st : RState) (a : String) :
    (processItem res cap st a).tent a = st.tent a + 1 ∧
    (∀ j, j ≠ a → (processItem res cap st a).tent j = st.tent j) ∧
    (processItem res cap st a).trace = st.trace ++ [(a, st.tent a + 1)] ∧
    (∃ recs, (processItem res cap st a).records = st.records ++ recs) ∧
    ((processItem res cap st a).fila = st.fila ∨
      ((processItem res cap st a).fila = st.fila ++ [a] ∧
        (processItem res cap st a).tent a < cap)) := by
  cases hres : res a (st.tent a + 1) with
  | sucesso =>
    rw [processItem_sucesso res cap st a hres]
    exact ⟨by simp, fun j hj => by simp [hj], rfl, ⟨_, rfl⟩, Or.inl rfl⟩
  | ignorado =>
    rw [processItem_ignorado res cap st a hres]
    exact ⟨by simp, fun j hj => by simp [hj], rfl, ⟨_, rfl⟩, Or.inl rfl⟩
  | falha =>
    by_cases hlt : st.tent a + 1 < cap
    · rw [processItem_falha_lt res cap st a hres hlt]
      exact ⟨by simp, fun j hj => by simp [hj], rfl, ⟨[], by simp⟩,
        Or.inr ⟨rfl, by simpa using hlt⟩⟩
    · rw [processItem_falha_ge res cap st a hres hlt]
      exact ⟨by simp, fun j hj => by simp [hj], rfl, ⟨_, rfl⟩, Or.inl rfl⟩

lemma mem_lift_left {a i : String} {l1 l2 : List String}
    (hi : i ∈ l1 ++ l2) : i ∈ (a :: l1) ++ l2 := by
  rcases List.mem_append.mp hi with h | h
  · exact List.mem_append.mpr (Or.inl (List.mem_cons_of_mem a h))
  · exact List.mem_append.mpr (Or.inr h)

/-- Invariant preservation and measure decrease for one lote
(the inner for-loop of send.py lines 734-783). -/
lemma foldl_processItem_inv (res : String → Nat → SStatus) (cap : Nat)
    (lote : List String) :
    ∀ (st : RState),
      (lote ++ st.fila).Nodup →
      (∀ i ∈ lote ++ st.fila, st.tent i < cap) →
      (∀ i, st.tent i ≤ cap) →
      (lote.foldl (processItem res cap) st).fila.Nodup ∧
        (∀ i ∈ (lote.foldl (processItem res cap) st).fila,
          (lote.foldl (processItem res cap) st).tent i < cap) ∧
        (∀ i, (lote.foldl (processItem res cap) st).tent i ≤ cap) ∧
        mu cap (lote.foldl (processItem res cap) st) + lote.length ≤
          (lote.map (fun i => cap - st.tent i)).sum + mu cap st ∧
        (lote.foldl (processItem res cap) st).trace.length =
          st.trace.length + lote.length ∧
        (∃ recs, (lote.foldl (processItem res cap) st).records =
          st.records ++ recs) := by
  induction lote with
  | nil =>
    intro st hnd hlt hle
    refine ⟨by simpa using hnd, by simpa using hlt, hle, by simp, by simp,
      ⟨[], by simp⟩⟩
  | cons a lote' ih =>
    intro st hnd hlt hle
    obtain ⟨hta, htj, htr, ⟨recs0, hrecs⟩, hfila⟩ := processItem_fields res cap st a
    have hnd0 : (a :: (lote' ++ st.fila)).Nodup := by simpa using hnd
    have hnotmem : a ∉ lote' ++ st.fila := (List.nodup_cons.mp hnd0).1
    have hnd' : (lote' ++ st.fila).Nodup := (List.nodup_cons.mp hnd0).2
    have hca : st.tent a < cap := hlt a (by simp)
    have htent_off : ∀ i ∈ lote' ++ st.fila,
        (processItem res cap st a).tent i = st.tent i := by
      intro i hi
      exact htj i (fun hia => hnotmem (hia ▸ hi))
    have hle1 : ∀ i, (processItem res cap st a).tent i ≤ cap := by
      intro i
      by_cases hia : i = a
      · subst hia; rw [hta]; omega
      · rw [htj i hia]; exact hle i
    have hsum_lote : (lote'.map (fun i => cap - (processItem res cap st a).tent i)).sum =
        (lote'.map (fun i => cap - st.tent i)).sum := by
      congr 1
      refine List.map_congr_left ?_
      intro i hi
      rw [htent_off i (List.mem_append.mpr (Or.inl hi))]
    have hsum_fila : (st.fila.map (fun i => cap - (processItem res cap st a).tent i)).sum =
        (st.fila.map (fun i => cap - st.tent i)).sum := by
      congr 1
      refine List.map_congr_left ?_
      intro i hi
      rw [htent_off i (List.mem_append.mpr (Or.inr hi))]
    rcases hfila with hfe | ⟨hfe, hlt_a⟩
    · -- the item was not requeued
      have hnd1 : (lote' ++ (processItem res cap st a).fila).Nodup := by
        rw [hfe]; exact hnd'
      have hlt1 : ∀ i ∈ lote' ++ (processItem res cap st a).fila,
          (processItem res cap st a).tent i < cap := by
        intro i hi
        rw [hfe] at hi
        rw [htent_off i hi]
        exact hlt i (mem_lift_left hi)
      obtain ⟨hndF, hltF, hleF, hmuF, htrF, ⟨recsF, hrecF⟩⟩ :=
        ih (processItem res cap st a) hnd1 hlt1 hle1
      have hmu1 : mu cap (processItem res cap st a) = mu cap st := by
        unfold mu
        rw [hfe]
        exact hsum_fila
      refine ⟨hndF, hltF, hleF, ?_, ?_, ⟨recs0 ++ recsF, ?_⟩⟩
      · rw [List.foldl_cons] at *
        rw [List.map_cons, List.sum_cons]
        rw [hsum_lote, hmu1] at hmuF
        simp only [List.length_cons]
        omega
      · rw [List.foldl_cons] at *
        rw [htrF, htr]
        simp [Nat.add_assoc, Nat.add_comm, Nat.add_left_comm]
      · rw [List.foldl_cons] at *
        rw [hrecF, hrecs, List.append_assoc]
    · -- the item was requeued at the tail
      have hnd1 : (lote' ++ (processItem res cap st a).fila).Nodup := by
        rw [hfe, ← List.append_assoc]
        refine List.nodup_middle.mpr ?_
        simpa using hnd0
      have hlt1 : ∀ i ∈ lote' ++ (processItem res cap st a).fila,
          (processItem res cap st a).tent i < cap := by
        intro i hi
        by_cases hia : i = a
        · subst hia; exact hlt_a
        · rw [htj i hia]
          rw [hfe] at hi
          have hi' : i ∈ lote' ++ st.fila := by
            rcases List.mem_append.mp hi with h | h
            · exact List.mem_append.mpr (Or.inl h)
            · rcases List.mem_append.mp h with h2 | h2
              · exact List.mem_append.mpr (Or.inr h2)
              · exact absurd (List.mem_singleton.mp h2) hia
          exact hlt i (mem_lift_left hi')
      obtain ⟨hndF, hltF, hleF, hmuF, htrF, ⟨recsF, hrecF⟩⟩ :=
        ih (processItem res cap st a) hnd1 hlt1 hle1
      have hmu1 : mu cap (processItem res cap st a) =
          mu cap st + (cap - (st.tent a + 1)) := by
        unfold mu
        rw [hfe, List.map_append, List.sum_append, hsum_fila, List.map_singleton,
          List.sum_singleton, hta]
      refine ⟨hndF, hltF, hleF, ?_, ?_, ⟨recs0 ++ recsF, ?_⟩⟩
      · rw [List.foldl_cons] at *
        rw [List.map_cons, List.sum_cons]
        rw [hsum_lote, hmu1] at hmuF
        simp only [List.length_cons]
        omega
      · rw [List.foldl_cons] at *
        rw [htrF, htr]
        simp [Nat.add_assoc, Nat.add_comm, Nat.add_left_comm]
      · rw [List.foldl_cons] at *
        rw [hrecF, hrecs, List.append_assoc]

/-- Fuel equal to the measure drains the queue: the loop terminates with
an empty fila and at most `mu` further send invocations. -/
lemma runQueue_drains (res : String → Nat → SStatus) (cap : Nat) :
    ∀ (fuel : Nat) (st : RState),
      st.fila.Nodup →
      (∀ i ∈ st.fila, st.tent i < cap) →
      (∀ i, st.tent i ≤ cap) →
      mu cap st ≤ fuel →
      (runQueue res cap fuel st).fila = [] ∧
        (runQueue res cap fuel st).trace.length ≤ st.trace.length + mu cap st ∧
        (∀ i, (runQueue res cap fuel st).tent i ≤ cap) ∧
        (∃ recs, (runQueue res cap fuel st).records = st.records ++ recs) := by
  intro fuel
  induction fuel with
  | zero =>
    intro st hnd hlt hle hmu
    have hfila : st.fila = [] := by
      cases hf : st.fila with
      | nil => rfl
      | cons f rest =>
        exfalso
        have h1 : st.tent f < cap := hlt f (by rw [hf]; simp)
        have : mu cap st = (cap - st.tent f) +
            (rest.map (fun i => cap - st.tent i)).sum := by
          unfold mu
          rw [hf, List.map_cons, List.sum_cons]
        omega
    refine ⟨by simpa [runQueue] using hfila, by simp [runQueue], ?_, ⟨[], by simp [runQueue]⟩⟩
    intro i
    simpa [runQueue] using hle i
  | succ fuel ih =>
    intro st hnd hlt hle hmu
    cases hf : st.fila with
    | nil =>
      refine ⟨by simp [runQueue, hf], by simp [runQueue, hf], ?_, ⟨[], by simp [runQueue, hf]⟩⟩
      intro i
      simpa [runQueue, hf] using hle i
    | cons f rest =>
      have hstep : runQueue res cap (fuel + 1) st =
          runQueue res cap fuel
            ((st.fila.take 100).foldl (processItem res cap)
              ⟨st.fila.drop 100, st.tent, st.records, st.trace⟩) := by
        simp [runQueue, hf]
      have hbase_nd : (st.fila.take 100 ++
          (⟨st.fila.drop 100, st.tent, st.records, st.trace⟩ : RState).fila).Nodup := by
        simpa [List.take_append_drop] using hnd
      have hbase_lt : ∀ i ∈ st.fila.take 100 ++
          (⟨st.fila.drop 100, st.tent, st.records, st.trace⟩ : RState).fila,
          (⟨st.fila.drop 100, st.tent, st.records, st.trace⟩ : RState).tent i < cap := by
        intro i hi
        simp only [List.take_append_drop] at hi
        exact hlt i hi
      obtain ⟨hndF, hltF, hleF, hmuF, htrF, ⟨recs1, hrecF⟩⟩ :=
        foldl_processItem_inv res cap (st.fila.take 100)
          ⟨st.fila.drop 100, st.tent, st.records, st.trace⟩ hbase_nd hbase_lt hle
      have hb1 : ((st.fila.take 100).map (fun i => cap -
          (⟨st.fila.drop 100, st.tent, st.records, st.trace⟩ : RState).tent i)).sum =
          ((st.fila.take 100).map (fun i => cap - st.tent i)).sum := rfl
      have hb2 : (⟨st.fila.drop 100, st.tent, st.records, st.trace⟩ : RState).trace.length =
          st.trace.length := rfl
      rw [hb1] at hmuF
      rw [hb2] at htrF
      have hlen_lote : 1 ≤ (st.fila.take 100).length := by
        rw [List.length_take, hf]
        simp
      have hmu_split : ((st.fila.take 100).map (fun i => cap - st.tent i)).sum +
          mu cap (⟨st.fila.drop 100, st.tent, st.records, st.trace⟩ : RState) =
          mu cap st := by
        unfold mu
        conv_rhs => rw [← List.take_append_drop 100 st.fila]
        rw [List.map_append, List.sum_append]
      have hmu1 : mu cap ((st.fila.take 100).foldl (processItem res cap)
          ⟨st.fila.drop 100, st.tent, st.records, st.trace⟩) ≤ fuel := by
        omega
      obtain ⟨hfin, htrfin, hlefin, ⟨recs2, hrecfin⟩⟩ :=
        ih ((st.fila.take 100).foldl (processItem res cap)
          ⟨st.fila.drop 100, st.tent, st.records, st.trace⟩) hndF hltF hleF hmu1
      rw [hstep]
      refine ⟨hfin, ?_, hlefin, ⟨recs1 ++ recs2, ?_⟩⟩
      · have h1 : ((st.fila.take 100).foldl (processItem res cap)
            ⟨st.fila.drop 100, st.tent, st.records, st.trace⟩).trace.length =
            st.trace.length + (st.fila.take 100).length := htrF
        omega
      · rw [hrecfin, hrecF, List.append_assoc]

/-- The counter of each item always equals the number of send invocations
for it so far. -/
lemma foldl_tent_sync (res : String → Nat → SStatus) (cap : Nat)
    (lote : List String) :
    ∀ (st : RState),
      (∀ i, st.tent i = st.trace.countP (fun e => e.1 == i)) →
      ∀ i, (lote.foldl (processItem res cap) st).tent i =
        (lote.foldl (processItem res cap) st).trace.countP (fun e => e.1 == i) := by
  induction lote with
  | nil => intro st h i; simpa using h i
  | cons a lote' ih =>
    intro st h i
    rw [List.foldl_cons]
    refine ih (processItem res cap st a) ?_ i
    intro j
    obtain ⟨hta, htj, htr, _, _⟩ := processItem_fields res cap st a
    rw [htr, List.countP_append]
    by_cases hja : j = a
    · subst hja
      rw [hta, h j]
      simp
    · rw [htj j hja, h j]
      have : ((a, st.tent a + 1).1 == j) = false := by
        simp [BEq.beq]
        exact fun hc => hja hc.symm
      simp [this]

lemma runQueue_tent_sync (res : String → Nat → SStatus) (cap : Nat) :
    ∀ (fuel : Nat) (st : RState),
      (∀ i, st.tent i = st.trace.countP (fun e => e.1 == i)) →
      ∀ i, (runQueue res cap fuel st).tent i =
        (runQueue res cap fuel st).trace.countP (fun e => e.1 == i) := by
  intro fuel
  induction fuel with
  | zero => intro st h i; simpa [runQueue] using h i
  | succ fuel ih =>
    intro st h i
    cases hf : st.fila with
    | nil => simpa [runQueue, hf] using h i
    | cons f rest =>
      have hstep : runQueue res cap (fuel + 1) st =
          runQueue res cap fuel
            ((st.fila.take 100).foldl (processItem res cap)
              ⟨st.fila.drop 100, st.tent, st.records, st.trace⟩) := by
        simp [runQueue, hf]
      rw [hstep]
      exact ih _ (foldl_tent_sync res cap (st.fila.take 100)
        ⟨st.fila.drop 100, st.tent, st.records, st.trace⟩ h) i

lemma mu_init (cap : Nat) (items : List String) :
    mu cap (initState items) = cap * items.length := by
  induction items with
  | nil => simp [mu, initState]
  | cons a t ih =>
    simp only [mu, initState, List.map_cons, List.sum_cons, List.length_cons] at ih ⊢
    rw [Nat.mul_succ]
    omega

/-- The delivered record the C3 scenario expects: success on pass C+1. -/
def okRecord (i : String) (C : Nat) : SRecord := ⟨i, SStatus.sucesso, C + 1⟩

/-- Through one lote, an item that fails its first C passes and succeeds
on pass C+1 (with C+1 within the cap) either has already been recorded
delivered with count C+1, or is still queued with at most C passes used. -/
lemma foldl_J (res : String → Nat → SStatus) (cap C : Nat) (i : String)
    (hf : ∀ t, t < C → res i (t + 1) = SStatus.falha)
    (hs : res i (C + 1) = SStatus.sucesso)
    (hcap : C + 1 ≤ cap)
    (lote : List String) :
    ∀ st : RState,
      (lote ++ st.fila).Nodup →
      (okRecord i C ∈ st.records ∨ (i ∈ lote ++ st.fila ∧ st.tent i ≤ C)) →
      (lote.foldl (processItem res cap) st).fila.Nodup ∧
        (okRecord i C ∈ (lote.foldl (processItem res cap) st).records ∨
          (i ∈ (lote.foldl (processItem res cap) st).fila ∧
            (lote.foldl (processItem res cap) st).tent i ≤ C)) := by
  induction lote with
  | nil =>
    intro st hnd hJ
    refine ⟨by simpa using hnd, ?_⟩
    simpa using hJ
  | cons a lote' ih =>
    intro st hnd hJ
    obtain ⟨hta, htj, htr, ⟨recs0, hrecs⟩, hfila⟩ := processItem_fields res cap st a
    have hnd0 : (a :: (lote' ++ st.fila)).Nodup := by simpa using hnd
    have hnotmem : a ∉ lote' ++ st.fila := (List.nodup_cons.mp hnd0).1
    have hnd' : (lote' ++ st.fila).Nodup := (List.nodup_cons.mp hnd0).2
    have hnd1 : (lote' ++ (processItem res cap st a).fila).Nodup := by
      rcases hfila with hfe | ⟨hfe, _⟩
      · rw [hfe]; exact hnd'
      · rw [hfe, ← List.append_assoc]
        exact List.nodup_middle.mpr (by simpa using hnd0)
    rw [List.foldl_cons]
    refine ih (processItem res cap st a) hnd1 ?_
    rcases hJ with hrec | ⟨hmem, htC⟩
    · exact Or.inl (by rw [hrecs]; exact List.mem_append_left _ hrec)
    · by_cases hia : i = a
      · subst hia
        rcases Nat.lt_or_ge (st.tent i) C with hlt | hge
        · have hres : res i (st.tent i + 1) = SStatus.falha := hf (st.tent i) hlt
          have hltcap : st.tent i + 1 < cap := by omega
          rw [processItem_falha_lt res cap st i hres hltcap]
          right
          refine ⟨by simp, ?_⟩
          show (if i = i then st.tent i + 1 else st.tent i) ≤ C
          rw [if_pos rfl]
          omega
        · have heq : st.tent i = C := Nat.le_antisymm htC hge
          have hres : res i (st.tent i + 1) = SStatus.sucesso := by
            rw [heq]; exact hs
          rw [processItem_sucesso res cap st i hres]
          left
          simp [okRecord, heq]
      · right
        refine ⟨?_, by rw [htj i hia]; exact htC⟩
        have hi0 : i ∈ lote' ++ st.fila := by
          rcases List.mem_append.mp hmem with h | h
          · rcases List.mem_cons.mp h with h1 | h1
            · exact absurd h1 hia
            · exact List.mem_append.mpr (Or.inl h1)
          · exact List.mem_append.mpr (Or.inr h)
        rcases hfila with hfe | ⟨hfe, _⟩
        · rw [hfe]; exact hi0
        · rw [hfe]
          rcases List.mem_append.mp hi0 with h | h
          · exact List.mem_append.mpr (Or.inl h)
          · exact List.mem_append.mpr
              (Or.inr (List.mem_append.mpr (Or.inl h)))

lemma runQueue_J (res : String → Nat → SStatus) (cap C : Nat) (i : String)
    (hf : ∀ t, t < C → res i (t + 1) = SStatus.falha)
    (hs : res i (C + 1) = SStatus.sucesso)
    (hcap : C + 1 ≤ cap) :
    ∀ (fuel : Nat) (st : RState),
      st.fila.Nodup →
      (okRecord i C ∈ st.records ∨ (i ∈ st.fila ∧ st.tent i ≤ C)) →
      (okRecord i C ∈ (runQueue res cap fuel st).records ∨
        (i ∈ (runQueue res cap fuel st).fila ∧
          (runQueue res cap fuel st).tent i ≤ C)) := by
  intro fuel
  induction fuel with
  | zero =>
    intro st hnd hJ
    simpa [runQueue] using hJ
  | succ fuel ih =>
    intro st hnd hJ
    cases hfq : st.fila with
    | nil => simpa [runQueue, hfq] using hJ
    | cons f rest =>
      have hstep : runQueue res cap (fuel + 1) st =
          runQueue res cap fuel
            ((st.fila.take 100).foldl (processItem res cap)
              ⟨st.fila.drop 100, st.tent, st.records, st.trace⟩) := by
        simp [runQueue, hfq]
      have hbase_nd : (st.fila.take 100 ++
          (⟨st.fila.drop 100, st.tent, st.records, st.trace⟩ : RState).fila).Nodup := by
        simpa [List.take_append_drop] using hnd
      have hbase_J : okRecord i C ∈
            (⟨st.fila.drop 100, st.tent, st.records, st.trace⟩ : RState).records ∨
          (i ∈ st.fila.take 100 ++
              (⟨st.fila.drop 100, st.tent, st.records, st.trace⟩ : RState).fila ∧
            (⟨st.fila.drop 100, st.tent, st.records, st.trace⟩ : RState).tent i ≤ C) := by
        rcases hJ with hrec | ⟨hmem, htC⟩
        · exact Or.inl hrec
        · refine Or.inr ⟨?_, htC⟩
          show i ∈ st.fila.take 100 ++ st.fila.drop 100
          rw [List.take_append_drop]
          exact hmem
      obtain ⟨hndF, hJF⟩ := foldl_J res cap C i hf hs hcap (st.fila.take 100)
        ⟨st.fila.drop 100, st.tent, st.records, st.trace⟩ hbase_nd hbase_J
      rw [hstep]
      exact ih _ hndF hJF

/-- C3: Under the requeue policy (send.py main), a failed item is
re-appended to the tail of the queue exactly while its incremented pass
count is below the cap and is recorded as failed exactly when the count
reaches the cap; and an item that fails its first C passes and succeeds
on pass C+1, with C+1 within the cap, is delivered with recorded attempt
count C+1 while the run still drains the entire queue. -/
theorem c3_requeue_bounded_retry (items : List String)
    (res : String → Nat → SStatus) (cap C : Nat) (i : String)
    (hnd : items.Nodup) (hi : i ∈ items)
    (hf : ∀ t, t < C → res i (t + 1) = SStatus.falha)
    (hs : res i (C + 1) = SStatus.sucesso)
    (hcap : C + 1 ≤ cap) :
    (∀ (st : RState) (item : String),
      res item (st.tent item + 1) = SStatus.falha →
        (st.tent item + 1 < cap →
          (processItem res cap st item).fila = st.fila ++ [item] ∧
            (processItem res cap st item).records = st.records) ∧
        (¬ st.tent item + 1 < cap →
          (processItem res cap st item).fila = st.fila ∧
            (processItem res cap st item).records =
              st.records ++ [⟨item, SStatus.falha, st.tent item + 1⟩])) ∧
      (runQueue res cap (cap * items.length) (initState items)).fila = [] ∧
      okRecord i C ∈
        (runQueue res cap (cap * items.length) (initState items)).records := by
  have hcap1 : 0 < cap := by omega
  have hdr := runQueue_drains res cap (cap * items.length) (initState items)
    hnd (fun j _ => hcap1) (fun j => Nat.le_of_lt hcap1)
    (by rw [mu_init])
  refine ⟨?_, hdr.1, ?_⟩
  · intro st item hres
    constructor
    · intro hlt
      rw [processItem_falha_lt res cap st item hres hlt]
      exact ⟨rfl, rfl⟩
    · intro hge
      rw [processItem_falha_ge res cap st item hres hge]
      exact ⟨rfl, rfl⟩
  · have hJ := runQueue_J res cap C i hf hs hcap (cap * items.length)
      (initState items) hnd (Or.inr ⟨hi, Nat.zero_le C⟩)
    rcases hJ with hrec | ⟨hmem, _⟩
    · exact hrec
    · rw [hdr.1] at hmem
      cases hmem

/-- Outcome oracle for the C3/C10 witnesses: b.xml fails its first two
passes and succeeds on the third; every other item succeeds at once. -/
def resB : String → Nat → SStatus :=
  fun j t => if j = "b.xml" ∧ t ≤ 2 then SStatus.falha else SStatus.sucesso

theorem c3_requeue_bounded_retry_witness :
    (["a.xml", "b.xml", "c.xml"] : List String).Nodup ∧
      okRecord "b.xml" 2 ∈
        (runQueue resB 3 (3 * 3) (initState ["a.xml", "b.xml", "c.xml"])).records := by
  refine ⟨by decide, ?_⟩
  exact (c3_requeue_bounded_retry ["a.xml", "b.xml", "c.xml"] resB 3 2 "b.xml"
    (by decide) (by decide) (by decide) (by decide) (by decide)).2.2

/-- C10: The requeue driver loop terminates — with fuel
MAX_REPROCESSOS * (number of items) the queue is fully drained — the
total number of send invocations in a run is at most
MAX_REPROCESSOS * (number of items), and each individual item is sent at
most MAX_REPROCESSOS times. -/
theorem c10_requeue_terminates (items : List String)
    (res : String → Nat → SStatus) (hnd : items.Nodup) :
    (runQueue res MAX_REPROCESSOS (MAX_REPROCESSOS * items.length)
        (initState items)).fila = [] ∧
      (runQueue res MAX_REPROCESSOS (MAX_REPROCESSOS * items.length)
        (initState items)).trace.length ≤ MAX_REPROCESSOS * items.length ∧
      ∀ i, (runQueue res MAX_REPROCESSOS (MAX_REPROCESSOS * items.length)
        (initState items)).trace.countP (fun e => e.1 == i) ≤ MAX_REPROCESSOS := by
  have hdr := runQueue_drains res MAX_REPROCESSOS
    (MAX_REPROCESSOS * items.length) (initState items) hnd
    (fun j _ => show (0 : Nat) < MAX_REPROCESSOS by decide)
    (fun j => show (0 : Nat) ≤ MAX_REPROCESSOS by decide)
    (by rw [mu_init])
  refine ⟨hdr.1, ?_, ?_⟩
  · have := hdr.2.1
    rw [mu_init] at this
    simpa [initState] using this
  · intro i
    have hsync := runQueue_tent_sync res MAX_REPROCESSOS
      (MAX_REPROCESSOS * items.length) (initState items)
      (fun j => by simp [initState]) i
    rw [← hsync]
    exact hdr.2.2.1 i

theorem c10_requeue_terminates_witness :
    (["a.xml", "b.xml", "c.xml"] : List String).Nodup ∧
      (runQueue resB MAX_REPROCESSOS (MAX_REPROCESSOS * 3)
        (initState ["a.xml", "b.xml", "c.xml"])).fila = [] := by
  refine ⟨by decide, ?_⟩
  exact (c10_requeue_terminates ["a.xml", "b.xml", "c.xml"] resB (by decide)).1

/-! ## Transfer Unit, store side: enviar_para_ftp (send.py lines 253-361)

The remote directory is an association list from file name to byte size.
Each attempt's external outcomes are fixed by an `AttSend` oracle; the
slept delays (milliseconds) are collected. -/

def lookupRemote : List (String × Nat) → String → Option Nat
  | [], _ => none
  | q :: r, nome => if q.1 = nome then some q.2 else lookupRemote r nome

def delRemote : List (String × Nat) → String → List (String × Nat)
  | [], _ => []
  | q :: r, nome => if q.1 = nome then delRemote r nome else q :: delRemote r nome

/-- STOR overwrites: the destination name now maps to the written size. -/
def setRemote (r : List (String × Nat)) (nome : String) (sz : Nat) :
    List (String × Nat) :=
  (nome, sz) :: delRemote r nome

/-- The info["detalhe"] strings of enviar_para_ftp, as structured values. -/
inductive Detalhe
| vazio
| naoEncontrado
| connIndisponivel
| errText (s : String)
| divergente (sz : Option Nat)
| transferido (t : Nat) (passivo : Bool)
deriving DecidableEq

/-- The info["status"] values of enviar_para_ftp. -/
inductive EStatus
| pendente
| sucesso
| falha
| ignorado
deriving DecidableEq

/-- The info dict of enviar_para_ftp, reduced to the claim-relevant
fields. -/
structure EnvioInfo where
  tamanho_remoto : Option Nat
  tentativas : Nat
  status : EStatus
  detalhe : Detalhe
deriving DecidableEq

/-- Oracle for attempt t of enviar_para_ftp. -/
structure AttSend where
  /-- garantir_conexao yields a live session (line 304) -/
  connOk : Bool
  /-- configurar_transferencia + storbinary complete without exception -/
  storOk : Bool
  /-- remote size present after a completed stor (line 323) -/
  written : Nat
  /-- partial remote content left behind by a failed stor, if any -/
  partialW : Option Nat
  /-- str(e) of the exception when storOk = false (line 349) -/
  errMsg : String
  /-- result of verificar_arquivo_remoto (line 325) -/
  sizeReported : Option Nat
  /-- ftp.delete(nome_remoto) succeeds (line 342); else error_perm -/
  deleOk : Bool
deriving DecidableEq

/-- State threaded through the retry loop of enviar_para_ftp. -/
structure SendSt where
  remote : List (String × Nat)
  sleeps : List Nat
  info : EnvioInfo
deriving DecidableEq

/-- send.py lines 302-356: one iteration of the retry loop for attempt
`t`.  The second component says whether the function returned (success,
or connection irrecoverably unavailable). -/
def enviarStep (nome : String) (tamLocal : Nat) (a : AttSend) (t : Nat)
    (st : SendSt) : SendSt × Bool :=
  if a.connOk = false then
    ({ st with
        info := { st.info with
          tentativas := t,
          status := EStatus.falha,
          detalhe := Detalhe.connIndisponivel } }, true)
  else
    if a.storOk then
      if a.sizeReported = some tamLocal then
        ({ remote := setRemote st.remote nome a.written,
           sleeps := st.sleeps,
           info := { st.info with
             tentativas := t,
             tamanho_remoto := a.sizeReported,
             status := EStatus.sucesso,
             detalhe := Detalhe.transferido t ((t - 1) % 2 == 0) } }, true)
      else
        ({ remote :=
             (if a.deleOk then delRemote (setRemote st.remote nome a.written) nome
              else setRemote st.remote nome a.written),
           sleeps := st.sleeps ++ [500],
           info := { st.info with
             tentativas := t,
             tamanho_remoto := a.sizeReported,
             detalhe := Detalhe.divergente a.sizeReported } }, false)
    else
      ({ remote :=
           (match a.partialW with
            | none => st.remote
            | some p => setRemote st.remote nome p),
         sleeps := st.sleeps ++ [500],
         info := { st.info with
           tentativas := t,
           detalhe := Detalhe.errText a.errMsg } }, false)

/-- The attempt loop (for tentativa in range(1, max+1)), with the final
status stamp of send.py lines 358-360 when the loop exhausts. -/
def enviarAux (nome : String) (tamLocal : Nat) (atts : Nat → AttSend) :
    List Nat → SendSt → SendSt
  | [], st =>
    { st with info := { st.info with
        status := if st.info.status = EStatus.sucesso then EStatus.sucesso
          else EStatus.falha } }
  | t :: ts, st =>
    let r := enviarStep nome tamLocal (atts t) t st
    if r.2 then r.1 else enviarAux nome tamLocal atts ts r.1

/-- send.py lines 253-361: enviar_para_ftp.  `localSize` is the local
file's size, or none when the file does not exist (the ignorado path);
the default max_tentativas is 3, so the attempts are 1, 2, 3. -/
def enviarParaFtp (nome : String) (localSize : Option Nat)
    (atts : Nat → AttSend) (r0 : List (String × Nat)) : SendSt :=
  match localSize with
  | none =>
    { remote := r0,
      sleeps := [],
      info := { tamanho_remoto := none,
                tentativas := 0,
                status := EStatus.ignorado,
                detalhe := Detalhe.naoEncontrado } }
  | some tam =>
    enviarAux nome tam atts [1, 2, 3]
      { remote := r0,
        sleeps := [],
        info := { tamanho_remoto := none,
                  tentativas := 0,
                  status := EStatus.pendente,
                  detalhe := Detalhe.vazio } }

lemma lookupRemote_del_ne (r : List (String × Nat)) (nome other : String)
    (h : other ≠ nome) :
    lookupRemote (delRemote r nome) other = lookupRemote r other := by
  induction r with
  | nil => rfl
  | cons q rest ih =>
    by_cases hq : q.1 = nome
    · rw [delRemote, if_pos hq, lookupRemote, if_neg (by rw [hq]; exact fun he => h he.symm)]
      exact ih
    · rw [delRemote, if_neg hq]
      by_cases ho : q.1 = other
      · rw [lookupRemote, if_pos ho, lookupRemote, if_pos ho]
      · rw [lookupRemote, if_neg ho, lookupRemote, if_neg ho]
        exact ih

lemma lookupRemote_set_ne (r : List (String × Nat)) (nome other : String)
    (sz : Nat) (h : other ≠ nome) :
    lookupRemote (setRemote r nome sz) other = lookupRemote r other := by
  rw [setRemote, lookupRemote, if_neg (fun he => h he.symm)]
  exact lookupRemote_del_ne r nome other h

lemma enviarStep_frame (nome : String) (tamLocal : Nat) (a : AttSend) (t : Nat)
    (st : SendSt) (other : String) (h : other ≠ nome) :
    lookupRemote (enviarStep nome tamLocal a t st).1.remote other =
      lookupRemote st.remote other := by
  unfold enviarStep
  split
  · rfl
  · split
    · split
      · exact lookupRemote_set_ne _ _ _ _ h
      · show lookupRemote (if a.deleOk then _ else _) other = _
        split
        · rw [lookupRemote_del_ne _ _ _ h]
          exact lookupRemote_set_ne _ _ _ _ h
        · exact lookupRemote_set_ne _ _ _ _ h
    · show lookupRemote (match a.partialW with
        | none => st.remote
        | some p => setRemote st.remote nome p) other = _
      cases a.partialW with
      | none => rfl
      | some p => exact lookupRemote_set_ne _ _ _ _ h

lemma enviarAux_frame (nome : String) (tamLocal : Nat) (atts : Nat → AttSend)
    (other : String) (h : other ≠ nome) :
    ∀ (ts : List Nat) (st : SendSt),
      lookupRemote (enviarAux nome tamLocal atts ts st).remote other =
        lookupRemote st.remote other := by
  intro ts
  induction ts with
  | nil => intro st; rfl
  | cons t ts ih =>
    intro st
    rw [enviarAux]
    split
    · exact enviarStep_frame nome tamLocal (atts t) t st other h
    · rw [ih]
      exact enviarStep_frame nome tamLocal (atts t) t st other h

/-- Oracle for the C4 counterexample: the first attempt stores, the size
check mismatches and the cleanup delete succeeds; later attempts cannot
even connect. -/
def attC4 : Nat → AttSend :=
  fun t =>
    if t = 1 then
      { connOk := true, storOk := true, written := 2, partialW := none,
        errMsg := "", sizeReported := some 2, deleOk := true }
    else
      { connOk := false, storOk := false, written := 0, partialW := none,
        errMsg := "", sizeReported := none, deleOk := false }

/-- C4 counterexample: a remote file a.xml of size 5 exists before the
store operation; after one mismatching store attempt the cleanup delete
of send.py line 342 has removed it — a file that existed before a store
no longer exists afterwards, so the operation is not purely additive. -/
theorem c4_counterexample :
    lookupRemote [("a.xml", 5)] "a.xml" = some 5 ∧
      lookupRemote (enviarParaFtp "a.xml" (some 3) attC4 [("a.xml", 5)]).remote
        "a.xml" = none := by
  decide

/-! ## Transfer Unit, fetch side: the download block of
tentar_processar_arquivo (receive.py lines 325-392)

Local paths are (base name, numeric suffix) pairs: suffix 0 is the bare
name, suffix i is the `_i` variant produced by the collision loop at
lines 330-333.  The local filesystem is an association list from path to
byte size. -/

/-- A local path: base name (with extension) and collision suffix. -/
structure LFile where
  base : String
  idx : Nat
deriving DecidableEq

def lookupL : List (LFile × Nat) → LFile → Option Nat
  | [], _ => none
  | q :: r, p => if q.1 = p then some q.2 else lookupL r p

def eraseL : List (LFile × Nat) → LFile → List (LFile × Nat)
  | [], _ => []
  | q :: r, p => if q.1 = p then eraseL r p else q :: eraseL r p

/-- Writing a file (open(.., "wb")): the path now maps to the content. -/
def insertL (l : List (LFile × Nat)) (p : LFile) (n : Nat) :
    List (LFile × Nat) :=
  (p, n) :: eraseL l p

/-- receive.py lines 330-333: try suffixes 0, 1, 2, ... until the path is
unused; the fuel argument only bounds the search and `freshPath_fresh`
shows the bound maxIdx+1 always suffices. -/
def freshFrom (l : List (LFile × Nat)) (b : String) : Nat → Nat → Nat
  | 0, n => n
  | fuel + 1, n =>
    if (lookupL l ⟨b, n⟩).isSome then freshFrom l b fuel (n + 1) else n

def maxIdx (l : List (LFile × Nat)) : Nat :=
  l.foldr (fun q acc => max q.1.idx acc) 0

/-- The collision-free local path chosen for base name `b`. -/
def freshPath (l : List (LFile × Nat)) (b : String) : LFile :=
  ⟨b, freshFrom l b (maxIdx l + 1) 0⟩

/-- Outcome of the RETR attempt (receive.py lines 364-392): completed
with a byte count, ssl.SSLError with a partial file left in place, or
any other exception (the partial local file is then removed). -/
inductive RetrRes
| ok (bytes : Nat)
| sslErr (partialBytes : Nat)
| outroErr (partialBytes : Nat)
deriving DecidableEq

/-- receive.py lines 364-392: one download attempt.  The wb-open creates
the file at the fresh collision-free path; a zero-byte result raises
RuntimeError and, like any non-SSL failure, the partial file is removed
(lines 385-388); an SSL error leaves the partial file (lines 378-382).
The second component is tam_local_cache after the attempt. -/
def downloadAttempt (l : List (LFile × Nat)) (b : String) (r : RetrRes) :
    List (LFile × Nat) × Option Nat :=
  match r with
  | RetrRes.ok bytes =>
    if bytes = 0 then (eraseL (insertL l (freshPath l b) bytes) (freshPath l b), none)
    else (insertL l (freshPath l b) bytes, some bytes)
  | RetrRes.sslErr p => (insertL l (freshPath l b) p, none)
  | RetrRes.outroErr p => (eraseL (insertL l (freshPath l b) p) (freshPath l b), none)

lemma freshFrom_spec (l : List (LFile × Nat)) (b : String) :
    ∀ (fuel n : Nat), lookupL l ⟨b, n + fuel⟩ = none →
      lookupL l ⟨b, freshFrom l b fuel n⟩ = none := by
  intro fuel
  induction fuel with
  | zero => intro n h; simpa using h
  | succ fuel ih =>
    intro n h
    rw [freshFrom]
    split
    · refine ih (n + 1) ?_
      have : n + 1 + fuel = n + (fuel + 1) := by omega
      rw [this]
      exact h
    · rename_i hs
      exact Option.not_isSome_iff_eq_none.mp hs

lemma lookupL_some_mem (l : List (LFile × Nat)) (p : LFile) (v : Nat)
    (h : lookupL l p = some v) : (p, v) ∈ l := by
  induction l with
  | nil => cases h
  | cons q rest ih =>
    rw [lookupL] at h
    split at h
    · rename_i hq
      injection h with h2
      rw [← hq, ← h2]
      simp
    · exact List.mem_cons_of_mem q (ih h)

lemma le_maxIdx (l : List (LFile × Nat)) :
    ∀ q ∈ l, q.1.idx ≤ maxIdx l := by
  induction l with
  | nil => intro q hq; cases hq
  | cons a rest ih =>
    intro q hq
    rcases List.mem_cons.mp hq with h | h
    · rw [h, maxIdx, List.foldr_cons]
      exact Nat.le_max_left _ _
    · rw [maxIdx, List.foldr_cons]
      exact Nat.le_trans (ih q h) (Nat.le_max_right _ _)

/-- The chosen path never collides with an existing local file. -/
lemma freshPath_fresh (l : List (LFile × Nat)) (b : String) :
    lookupL l (freshPath l b) = none := by
  refine freshFrom_spec l b (maxIdx l + 1) 0 ?_
  cases h : lookupL l ⟨b, 0 + (maxIdx l + 1)⟩ with
  | none => rfl
  | some v =>
    exfalso
    have hm := lookupL_some_mem l _ v h
    have h1 := le_maxIdx l _ hm
    simp at h1

lemma lookupL_erase_ne (l : List (LFile × Nat)) (p q : LFile) (h : q ≠ p) :
    lookupL (eraseL l p) q = lookupL l q := by
  induction l with
  | nil => rfl
  | cons a rest ih =>
    by_cases hp : a.1 = p
    · rw [eraseL, if_pos hp, lookupL, if_neg (by rw [hp]; exact fun he => h he.symm)]
      exact ih
    · rw [eraseL, if_neg hp]
      by_cases hq : a.1 = q
      · rw [lookupL, if_pos hq, lookupL, if_pos hq]
      · rw [lookupL, if_neg hq, lookupL, if_neg hq]
        exact ih

lemma lookupL_insert_ne (l : List (LFile × Nat)) (p q : LFile) (n : Nat)
    (h : q ≠ p) :
    lookupL (insertL l p n) q = lookupL l q := by
  rw [insertL, lookupL, if_neg (fun he => h he.symm)]
  exact lookupL_erase_ne l p q h

lemma downloadAttempt_frame (l : List (LFile × Nat)) (b : String) (r : RetrRes)
    (q : LFile) (h : q ≠ freshPath l b) :
    lookupL (downloadAttempt l b r).1 q = lookupL l q := by
  cases r with
  | ok bytes =>
    simp only [downloadAttempt]
    split
    · rw [lookupL_erase_ne _ _ _ h, lookupL_insert_ne _ _ _ _ h]
    · rw [lookupL_insert_ne _ _ _ _ h]
  | sslErr p =>
    simp only [downloadAttempt]
    rw [lookupL_insert_ne _ _ _ _ h]
  | outroErr p =>
    simp only [downloadAttempt]
    rw [lookupL_erase_ne _ _ _ h, lookupL_insert_ne _ _ _ _ h]

/-- C4 (amended): the Transfer Unit operations do delete files — the
store deletes the remote destination file after a failed size
verification and the fetch removes the partial local file it just wrote —
but they never touch anything else: a store leaves every remote name
other than its destination unchanged, and a fetch leaves every
pre-existing local file intact, because its target path is collision
free. -/
theorem c4_amended_transfer_frame :
    (∀ (nome : String) (localSize : Option Nat) (atts : Nat → AttSend)
        (r0 : List (String × Nat)) (other : String), other ≠ nome →
      lookupRemote (enviarParaFtp nome localSize atts r0).remote other =
        lookupRemote r0 other) ∧
    (∀ (l : List (LFile × Nat)) (b : String) (r : RetrRes) (q : LFile) (v : Nat),
      lookupL l q = some v → lookupL (downloadAttempt l b r).1 q = some v) := by
  constructor
  · intro nome localSize atts r0 other h
    cases localSize with
    | none => rfl
    | some tam => exact enviarAux_frame nome tam atts other h [1, 2, 3] _
  · intro l b r q v hv
    have hne : q ≠ freshPath l b := by
      intro he
      rw [he, freshPath_fresh l b] at hv
      cases hv
    rw [downloadAttempt_frame l b r q hne]
    exact hv

theorem c4_amended_transfer_frame_witness :
    ("x.xml" : String) ≠ "a.xml" ∧
      lookupRemote (enviarParaFtp "a.xml" (some 3) attC4
        [("a.xml", 5), ("x.xml", 9)]).remote "x.xml" = lookupRemote
        [("a.xml", 5), ("x.xml", 9)] "x.xml" ∧
      lookupL [(⟨"f.xml", 0⟩, 4)] ⟨"f.xml", 0⟩ = some 4 ∧
      lookupL (downloadAttempt [(⟨"f.xml", 0⟩, 4)] "f.xml"
        (RetrRes.outroErr 2)).1 ⟨"f.xml", 0⟩ = some 4 := by
  refine ⟨by decide, ?_, by decide, ?_⟩
  · exact c4_amended_transfer_frame.1 "a.xml" (some 3) attC4
      [("a.xml", 5), ("x.xml", 9)] "x.xml" (by decide)
  · exact c4_amended_transfer_frame.2 [(⟨"f.xml", 0⟩, 4)] "f.xml"
      (RetrRes.outroErr 2) ⟨"f.xml", 0⟩ 4 (by decide)

/-! ## Retry/backoff skeletons

receive.py lines 335-456: backoff starts at BACKOFF_INICIAL_S, each
failed attempt sleeps the current backoff then doubles it and increments
tent, until tent exceeds MAX_TENTATIVAS_POR_ARQUIVO.  send.py line 356:
each failed attempt sleeps a fixed 0.5 s. -/

/-- receive.py while-loop reduced to its retry skeleton: `res t` is
whether attempt t reaches move_ok.  The first argument is the number of
attempts left; the slept delays (seconds) are collected in order. -/
def tentarBackoff (res : Nat → Bool) : Nat → Nat → Nat → Bool × List Nat
  | 0, _, _ => (false, [])
  | n + 1, tent, back =>
    if res tent then (true, [])
    else
      ((tentarBackoff res n (tent + 1) (back * 2)).1,
        back :: (tentarBackoff res n (tent + 1) (back * 2)).2)

/-- The full per-file retry run (tent from 1, backoff from
BACKOFF_INICIAL_S, at most MAX_TENTATIVAS_POR_ARQUIVO attempts). -/
def tentarRun (res : Nat → Bool) : Bool × List Nat :=
  tentarBackoff res MAX_TENTATIVAS_POR_ARQUIVO 1 BACKOFF_INICIAL_S

lemma tentarBackoff_sleep (res : Nat → Bool) :
    ∀ (n tent back j d : Nat),
      ((tentarBackoff res n tent back).2)[j]? = some d → d = back * 2 ^ j := by
  intro n
  induction n with
  | zero => intro tent back j d h; cases h
  | succ n ih =>
    intro tent back j d h
    rw [tentarBackoff] at h
    split at h
    · cases h
    · cases j with
      | zero =>
        simp only [List.getElem?_cons_zero, Option.some_inj] at h
        simp [← h]
      | succ j =>
        simp only [List.getElem?_cons_succ] at h
        have := ih (tent + 1) (back * 2) j d h
        rw [this, pow_succ]
        ring

lemma sleeps_of_enviarStep (nome : String) (tamLocal : Nat) (a : AttSend)
    (t : Nat) (st : SendSt) (d : Nat)
    (h : d ∈ (enviarStep nome tamLocal a t st).1.sleeps) :
    d ∈ st.sleeps ∨ d = 500 := by
  revert h
  unfold enviarStep
  split
  · exact fun h => Or.inl h
  · split
    · split
      · exact fun h => Or.inl h
      · intro h
        rcases List.mem_append.mp h with h1 | h2
        · exact Or.inl h1
        · exact Or.inr (List.mem_singleton.mp h2)
    · intro h
      rcases List.mem_append.mp h with h1 | h2
      · exact Or.inl h1
      · exact Or.inr (List.mem_singleton.mp h2)

lemma sleeps_of_enviarAux (nome : String) (tamLocal : Nat)
    (atts : Nat → AttSend) :
    ∀ (ts : List Nat) (st : SendSt) (d : Nat),
      d ∈ (enviarAux nome tamLocal atts ts st).sleeps →
      d ∈ st.sleeps ∨ d = 500 := by
  intro ts
  induction ts with
  | nil => exact fun st d h => Or.inl h
  | cons t ts ih =>
    intro st d h
    rw [enviarAux] at h
    split at h
    · exact sleeps_of_enviarStep nome tamLocal (atts t) t st d h
    · rcases ih _ d h with h1 | h1
      · exact sleeps_of_enviarStep nome tamLocal (atts t) t st d h1
      · exact Or.inr h1

/-- Oracle for the C8 counterexample and witness: every attempt connects
but the stor always raises. -/
def attC8 : Nat → AttSend :=
  fun _ =>
    { connOk := true, storOk := false, written := 0, partialW := none,
      errMsg := "boom", sizeReported := none, deleOk := false }

/-- C8 counterexample: in send.py the delays slept between retries of
enviar_para_ftp are a constant 0.5 s (here 500 ms) — the second slept
delay equals the first instead of doubling it, refuting the claim that
the delay before attempt t+1 is the initial delay times 2^(t-1). -/
theorem c8_counterexample :
    (enviarParaFtp "a.xml" (some 3) attC8 []).sleeps = [500, 500, 500] ∧
      ((enviarParaFtp "a.xml" (some 3) attC8 []).sleeps)[0]? = some 500 ∧
      ((enviarParaFtp "a.xml" (some 3) attC8 []).sleeps)[1]? = some 500 ∧
      (500 : Nat) ≠ 2 * 500 := by
  decide

/-- C8 (amended): in receive.py the per-file retry does double — the j-th
slept delay (0-based) is BACKOFF_INICIAL_S * 2^j, i.e. the delay before
attempt t+1 is the initial delay times 2^(t-1) — and exhausting the five
tries yields the failure outcome carrying no structured error detail; in
send.py every slept delay is the constant 0.5 s (500 ms), and exhausting
the attempts yields a falha record whose detail carries the last error
text. -/
theorem c8_amended_backoff (res : Nat → Bool) (j d : Nat)
    (hj : ((tentarRun res).2)[j]? = some d)
    (hfail : ∀ t, 1 ≤ t → t ≤ MAX_TENTATIVAS_POR_ARQUIVO → res t = false) :
    d = BACKOFF_INICIAL_S * 2 ^ j ∧
      tentarRun res = (false, [1, 2, 4, 8, 16]) ∧
      (∀ (nome : String) (tam : Nat) (atts : Nat → AttSend)
          (r0 : List (String × Nat)) (e : Nat),
        e ∈ (enviarParaFtp nome (some tam) atts r0).sleeps → e = 500) ∧
      (∀ (nome : String) (tam : Nat) (atts : Nat → AttSend)
          (r0 : List (String × Nat)),
        (∀ t, 1 ≤ t → t ≤ 3 → (atts t).connOk = true ∧ (atts t).storOk = false) →
        (enviarParaFtp nome (some tam) atts r0).info.status = EStatus.falha ∧
          (enviarParaFtp nome (some tam) atts r0).info.detalhe =
            Detalhe.errText (atts 3).errMsg ∧
          (enviarParaFtp nome (some tam) atts r0).sleeps = [500, 500, 500]) := by
  refine ⟨tentarBackoff_sleep res MAX_TENTATIVAS_POR_ARQUIVO 1 BACKOFF_INICIAL_S j d hj,
    ?_, ?_, ?_⟩
  · have h1 := hfail 1 (by decide) (by decide)
    have h2 := hfail 2 (by decide) (by decide)
    have h3 := hfail 3 (by decide) (by decide)
    have h4 := hfail 4 (by decide) (by decide)
    have h5 := hfail 5 (by decide) (by decide)
    simp [tentarRun, MAX_TENTATIVAS_POR_ARQUIVO, BACKOFF_INICIAL_S,
      tentarBackoff, h1, h2, h3, h4, h5]
  · intro nome tam atts r0 e he
    rcases sleeps_of_enviarAux nome tam atts [1, 2, 3] _ e he with h1 | h1
    · cases h1
    · exact h1
  · intro nome tam atts r0 hatts
    obtain ⟨hc1, hs1⟩ := hatts 1 (by decide) (by decide)
    obtain ⟨hc2, hs2⟩ := hatts 2 (by decide) (by decide)
    obtain ⟨hc3, hs3⟩ := hatts 3 (by decide) (by decide)
    simp [enviarParaFtp, enviarAux, enviarStep, hc1, hs1, hc2, hs2, hc3, hs3]

theorem c8_amended_backoff_witness :
    ((tentarRun (fun _ => false)).2)[1]? = some 2 ∧
      (∀ t, 1 ≤ t → t ≤ MAX_TENTATIVAS_POR_ARQUIVO →
        (fun _ => false : Nat → Bool) t = false) ∧
      (2 : Nat) = BACKOFF_INICIAL_S * 2 ^ 1 := by
  refine ⟨by decide, fun t h1 h2 => rfl, ?_⟩
  exact (c8_amended_backoff (fun _ => false) 1 2 (by decide)
    (fun t h1 h2 => rfl)).1

/-! ## Session establishment

receive.py conectar_ftp (lines 94-122): connect/auth/login/PBSZ, then the
four combinations of modosReceive in order, returning the first for which
configurar_transferencia followed by cwd into the origin succeeds, else
None.  send.py conectar_ftp (lines 137-185): a single big try that
configures only PROT P + passive and returns None on any failure. -/

/-- The loop over `modos` of receive.py lines 109-121.  `ok m` says
whether configurar_transferencia plus ftp.cwd(PASTA_REMOTA_ORIGEM)
succeeds under combination m (the NOOP outcome is ignored). -/
def tentarModos (ok : Prot × Bool → Bool) :
    List (Prot × Bool) → Option (Prot × Bool)
  | [] => none
  | m :: rest => if ok m then some m else tentarModos ok rest

/-- receive.py conectar_ftp after the PBSZ handshake. -/
def conectarReceive (ok : Prot × Bool → Bool) : Option (Prot × Bool) :=
  tentarModos ok modosReceive

/-- Control commands issued by configurar_transferencia under mode m. -/
def cfgCmds : Prot × Bool → List Cmd
  | (Prot.P, b) => [Cmd.protP, Cmd.pasvMode b]
  | (Prot.C, b) => [Cmd.protC, Cmd.pasvMode b]

/-- Trace-collecting version of the mode loop. -/
def tentarModosTrace (ok : Prot × Bool → Bool) :
    List (Prot × Bool) → Option (Prot × Bool) × List Cmd
  | [] => (none, [])
  | m :: rest =>
    if ok m then (some m, cfgCmds m ++ [Cmd.cwd PASTA_REMOTA_ORIGEM, Cmd.noop])
    else
      ((tentarModosTrace ok rest).1,
        cfgCmds m ++ Cmd.cwd PASTA_REMOTA_ORIGEM :: (tentarModosTrace ok rest).2)

/-- receive.py lines 94-122 with its command trace: note that no close or
quit is ever issued by conectar_ftp, in particular not on the path where
every combination fails and the fresh handle is dropped. -/
def conectarFtpTrace (ok : Prot × Bool → Bool) :
    Option (Prot × Bool) × List Cmd :=
  ((tentarModosTrace ok modosReceive).1,
    Cmd.connect :: Cmd.auth :: Cmd.login :: Cmd.pbsz ::
      (tentarModosTrace ok modosReceive).2)

/-- receive.py garantir_conexao (lines 124-147): when a session exists,
probe it with NOOP; on probe failure close the stale handle and
reconnect; with no session just connect. -/
def garantirConexao (cur : Option (Prot × Bool)) (noopOk : Bool)
    (ok : Prot × Bool → Bool) : Option (Prot × Bool) × List Cmd :=
  match cur with
  | none => conectarFtpTrace ok
  | some m =>
    if noopOk then (some m, [Cmd.noop])
    else
      ((conectarFtpTrace ok).1,
        Cmd.noop :: Cmd.closeCmd :: (conectarFtpTrace ok).2)

/-- Oracle for the send.py conectar_ftp embedding. -/
structure SendConnEnv where
  /-- connect + auth + login + PBSZ complete (lines 151-162) -/
  setupOk : Bool
  /-- prot_p + set_pasv(True) + TYPE I complete (lines 165-167) -/
  protPasvOk : Bool
  /-- outcome of ftp.cwd(DESTINO_REMOTO) (line 172) -/
  cwdRes : OpRes
  /-- criar_diretorios_remotos followed by the retried cwd succeeds -/
  cwdAfterCreateOk : Bool
deriving DecidableEq

/-- send.py lines 137-185: conectar_ftp.  Returns the configured session
mode (always protected+passive when it succeeds) and the list of
protection-by-mode combinations the establishment attempted. -/
def conectarSend (env : SendConnEnv) :
    Option (Prot × Bool) × List (Prot × Bool) :=
  if env.setupOk = false then (none, [])
  else if env.protPasvOk = false then (none, [(Prot.P, true)])
  else
    match env.cwdRes with
    | OpRes.ok => (some (Prot.P, true), [(Prot.P, true)])
    | OpRes.errPerm =>
      if env.cwdAfterCreateOk then (some (Prot.P, true), [(Prot.P, true)])
      else (none, [(Prot.P, true)])
    | OpRes.outro => (none, [(Prot.P, true)])

/-- Environment for the C6 counterexample: setup succeeds but the single
protected+passive configuration fails. -/
def envC6 : SendConnEnv :=
  { setupOk := true, protPasvOk := false, cwdRes := OpRes.ok,
    cwdAfterCreateOk := true }

/-- C6 counterexample: send.py's session establishment attempts only the
protected+passive combination — not the four combinations in the claimed
preference order — and yields the connection-failure result after that
single combination fails, although the remaining three were never tried. -/
theorem c6_counterexample :
    (conectarSend envC6).1 = none ∧
      (conectarSend envC6).2 = [(Prot.P, true)] ∧
      (conectarSend envC6).2 ≠ modosReceive := by
  decide

lemma tentarModos_none_iff (ok : Prot × Bool → Bool) :
    ∀ l : List (Prot × Bool),
      tentarModos ok l = none ↔ ∀ m ∈ l, ok m = false := by
  intro l
  induction l with
  | nil => simp [tentarModos]
  | cons m rest ih =>
    rw [tentarModos]
    by_cases hm : ok m
    · simp [hm]
    · simp only [if_neg hm, ih]
      constructor
      · intro h m2 hm2
        rcases List.mem_cons.mp hm2 with h1 | h1
        · rw [h1]
          exact Bool.eq_false_iff.mpr hm
        · exact h m2 h1
      · intro h m2 hm2
        exact h m2 (List.mem_cons_of_mem m hm2)

lemma tentarModos_first (ok : Prot × Bool → Bool) :
    ∀ (l : List (Prot × Bool)) (m : Prot × Bool),
      tentarModos ok l = some m →
      ok m = true ∧ ∃ i : Nat, l[i]? = some m ∧
        ∀ j : Nat, j < i → ∀ m2, l[j]? = some m2 → ok m2 = false := by
  intro l
  induction l with
  | nil => intro m h; cases h
  | cons a rest ih =>
    intro m h
    rw [tentarModos] at h
    by_cases ha : ok a
    · rw [if_pos ha] at h
      injection h with h2
      subst h2
      exact ⟨ha, 0, by simp, fun j hj => by cases hj⟩
    · rw [if_neg ha] at h
      obtain ⟨hm, i, hi, hfirst⟩ := ih m h
      refine ⟨hm, i + 1, by simpa using hi, ?_⟩
      intro j hj m2 hj2
      cases j with
      | zero =>
        simp only [List.getElem?_cons_zero, Option.some_inj] at hj2
        rw [← hj2]
        exact Bool.eq_false_iff.mpr ha
      | succ j =>
        simp only [List.getElem?_cons_succ] at hj2
        exact hfirst j (Nat.lt_of_succ_lt_succ hj) m2 hj2

/-- C6 (amended): in receive.py, session establishment tries the four
combinations protected+passive, protected+active, clear+passive,
clear+active in that order, returns a session configured with the first
combination that succeeds, and yields the connection-failure result
(None) exactly when every combination fails; in send.py, establishment
attempts only protected+passive (or nothing, when the transport setup
itself fails) and returns None when that single path fails. -/
theorem c6_amended_session_establishment :
    (∀ ok : Prot × Bool → Bool,
      (conectarReceive ok = none ↔ ∀ m ∈ modosReceive, ok m = false)) ∧
    (∀ (ok : Prot × Bool → Bool) (m : Prot × Bool),
      conectarReceive ok = some m →
      ok m = true ∧ ∃ i : Nat, modosReceive[i]? = some m ∧
        ∀ j : Nat, j < i → ∀ m2, modosReceive[j]? = some m2 → ok m2 = false) ∧
    (∀ env : SendConnEnv,
      (conectarSend env).2 = [] ∨ (conectarSend env).2 = [(Prot.P, true)]) := by
  refine ⟨fun ok => tentarModos_none_iff ok modosReceive,
    fun ok m h => tentarModos_first ok modosReceive m h, ?_⟩
  intro env
  unfold conectarSend
  split
  · exact Or.inl rfl
  · split
    · exact Or.inr rfl
    · split
      · exact Or.inr rfl
      · split
        · exact Or.inr rfl
        · exact Or.inr rfl
      · exact Or.inr rfl

theorem c6_amended_session_establishment_witness :
    conectarReceive (fun _ => false) = none := by
  exact (c6_amended_session_establishment.1 (fun _ => false)).mpr
    (fun m _ => rfl)

/-- All four combinations fail: the counterexample environment for C7. -/
def okNenhum : Prot × Bool → Bool := fun _ => false

/-- C7 counterexample: when every mode combination fails, conectar_ftp of
receive.py returns None after having opened a connection (connect is in
the trace) without ever issuing a close or quit on it — the freshly
created handle is dropped unclosed, refuting the claim that no handle is
ever discarded without being closed. -/
theorem c7_counterexample :
    (conectarFtpTrace okNenhum).1 = none ∧
      Cmd.connect ∈ (conectarFtpTrace okNenhum).2 ∧
      Cmd.closeCmd ∉ (conectarFtpTrace okNenhum).2 ∧
      Cmd.quitCmd ∉ (conectarFtpTrace okNenhum).2 := by
  decide

/-- C7 (amended): a session handle that fails the liveness probe in
garantir_conexao is explicitly closed before the replacement connection
is opened — the trace is NOOP, close, then the connect sequence — but
the handle created by conectar_ftp itself is dropped without close when
every mode combination fails (see the counterexample). -/
theorem c7_amended_stale_handle_closed (m : Prot × Bool)
    (ok : Prot × Bool → Bool) :
    (garantirConexao (some m) false ok).2 =
      Cmd.noop :: Cmd.closeCmd :: Cmd.connect :: Cmd.auth :: Cmd.login ::
        Cmd.pbsz :: (tentarModosTrace ok modosReceive).2 := by
  rfl

/-! ## Directory Provisioner

The remote tree is the set (list) of existing directory paths, with the
deterministic server semantics: cwd succeeds exactly when the directory
exists, MKD creates it and fails with error_perm exactly when it already
exists.  Both implementations walk the accumulated prefixes of the
segment list `caminho.strip("/").split("/")` (receive.py additionally
drops empty segments). -/

/-- MKD under the deterministic server: none is the error_perm
"already exists" reply. -/
def srvMkd (dirs : List String) (p : String) : Option (List String) :=
  if p ∈ dirs then none else some (p :: dirs)

/-- receive.py lines 184-206: the bounded retry loop for one path prefix:
try to enter; on failure try to create; if creation reports error_perm,
re-test entry; otherwise retry with the remaining attempts. -/
def assegurarSeg (atual : String) : Nat → List String → List String × Bool × List Cmd
  | 0, dirs => (dirs, false, [])
  | t + 1, dirs =>
    if atual ∈ dirs then (dirs, true, [Cmd.cwd atual])
    else
      match srvMkd dirs atual with
      | some dirs2 => (dirs2, true, [Cmd.cwd atual, Cmd.mkd atual])
      | none =>
        if atual ∈ dirs then
          (dirs, true, [Cmd.cwd atual, Cmd.mkd atual, Cmd.cwd atual])
        else
          ((assegurarSeg atual t dirs).1, (assegurarSeg atual t dirs).2.1,
            Cmd.cwd atual :: Cmd.mkd atual :: Cmd.cwd atual ::
              (assegurarSeg atual t dirs).2.2)

/-- The accumulated prefixes visited for a segment list. -/
def prefList : String → List String → List String
  | _, [] => []
  | atual, p :: ps => (atual ++ "/" ++ p) :: prefList (atual ++ "/" ++ p) ps

/-- receive.py lines 163-215 over the segment list: ensure every prefix,
with tentativas = 3 per segment, accumulating the command trace.
(The best-effort pwd/cwd restoration of the caller's directory is not
modelled; the claim is about the tree.) -/
def assegurarLista : List String → List String → String → List String × Bool × List Cmd
  | [], dirs, _ => (dirs, true, [])
  | p :: ps, dirs, atual =>
    let r := assegurarSeg (atual ++ "/" ++ p) 3 dirs
    if r.2.1 then
      let r2 := assegurarLista ps r.1 (atual ++ "/" ++ p)
      (r2.1, r2.2.1, r.2.2 ++ r2.2.2)
    else (r.1, false, r.2.2)

/-- send.py lines 191-208 over the segment list: issue MKD for every
prefix, treating error_perm ("already exists") as success. -/
def criarSegmentos : List String → List String → String → List String × List Cmd
  | [], dirs, _ => (dirs, [])
  | p :: ps, dirs, atual =>
    let dirs2 :=
      match srvMkd dirs (atual ++ "/" ++ p) with
      | some d => d
      | none => dirs
    let r := criarSegmentos ps dirs2 (atual ++ "/" ++ p)
    (r.1, Cmd.mkd (atual ++ "/" ++ p) :: r.2)

/-- The segment list of an absolute path, as receive.py computes it. -/
def partesOf (caminho : String) : List String :=
  (caminho.splitOn "/").filter (fun s => !(s == ""))

/-- receive.py assegurar_diretorio_remoto applied to a path string. -/
def assegurarDiretorioRemoto (dirs : List String) (caminho : String) :
    List String × Bool × List Cmd :=
  if caminho = "" ∨ caminho = "/" then (dirs, true, [])
  else assegurarLista (partesOf caminho) dirs ""

/-- send.py criar_diretorios_remotos applied to a path string. -/
def criarDiretoriosRemotos (dirs : List String) (caminho : String) :
    List String × List Cmd :=
  criarSegmentos (partesOf caminho) dirs ""

lemma assegurarSeg3_mem (atual : String) (dirs : List String)
    (h : atual ∈ dirs) :
    assegurarSeg atual 3 dirs = (dirs, true, [Cmd.cwd atual]) := by
  show assegurarSeg atual (2 + 1) dirs = _
  rw [assegurarSeg, if_pos h]

lemma assegurarSeg3_not_mem (atual : String) (dirs : List String)
    (h : atual ∉ dirs) :
    assegurarSeg atual 3 dirs =
      (atual :: dirs, true, [Cmd.cwd atual, Cmd.mkd atual]) := by
  show assegurarSeg atual (2 + 1) dirs = _
  rw [assegurarSeg, if_neg h]
  simp [srvMkd, h]

lemma assegurarLista_ok :
    ∀ (partes dirs : List String) (atual : String),
      (assegurarLista partes dirs atual).2.1 = true ∧
        (∀ q ∈ prefList atual partes, q ∈ (assegurarLista partes dirs atual).1) ∧
        (∀ q ∈ dirs, q ∈ (assegurarLista partes dirs atual).1) := by
  intro partes
  induction partes with
  | nil =>
    intro dirs atual
    exact ⟨rfl, by simp [prefList], fun q hq => hq⟩
  | cons p ps ih =>
    intro dirs atual
    by_cases h : (atual ++ "/" ++ p) ∈ dirs
    · simp only [assegurarLista, assegurarSeg3_mem _ _ h]
      obtain ⟨hok, hpref, hsub⟩ := ih dirs (atual ++ "/" ++ p)
      simp only [hok, if_true]
      refine ⟨trivial, ?_, hsub⟩
      intro q hq
      rcases List.mem_cons.mp (by simpa [prefList] using hq) with h1 | h1
      · rw [h1]; exact hsub _ h
      · exact hpref q h1
    · simp only [assegurarLista, assegurarSeg3_not_mem _ _ h]
      obtain ⟨hok, hpref, hsub⟩ := ih ((atual ++ "/" ++ p) :: dirs) (atual ++ "/" ++ p)
      simp only [hok, if_true]
      refine ⟨trivial, ?_, fun q hq => hsub q (List.mem_cons_of_mem _ hq)⟩
      intro q hq
      rcases List.mem_cons.mp (by simpa [prefList] using hq) with h1 | h1
      · rw [h1]; exact hsub _ (List.mem_cons_self _ _)
      · exact hpref q h1

lemma assegurarLista_idem :
    ∀ (partes dirs : List String) (atual : String),
      (∀ q ∈ prefList atual partes, q ∈ dirs) →
      assegurarLista partes dirs atual =
        (dirs, true, (prefList atual partes).map Cmd.cwd) := by
  intro partes
  induction partes with
  | nil => intro dirs atual _; simp [assegurarLista, prefList]
  | cons p ps ih =>
    intro dirs atual hpre
    have hmem : (atual ++ "/" ++ p) ∈ dirs := hpre _ (by simp [prefList])
    simp only [assegurarLista, assegurarSeg3_mem _ _ hmem]
    rw [ih dirs (atual ++ "/" ++ p) (fun q hq => hpre q (by simp [prefList, hq]))]
    simp [prefList]

lemma criarSegmentos_super :
    ∀ (partes dirs : List String) (atual : String),
      (∀ q ∈ prefList atual partes, q ∈ (criarSegmentos partes dirs atual).1) ∧
        (∀ q ∈ dirs, q ∈ (criarSegmentos partes dirs atual).1) := by
  intro partes
  induction partes with
  | nil =>
    intro dirs atual
    exact ⟨by simp [prefList, criarSegmentos], fun q hq => hq⟩
  | cons p ps ih =>
    intro dirs atual
    by_cases h : (atual ++ "/" ++ p) ∈ dirs
    · simp only [criarSegmentos, srvMkd, if_pos h]
      obtain ⟨hpref, hsub⟩ := ih dirs (atual ++ "/" ++ p)
      refine ⟨?_, hsub⟩
      intro q hq
      rcases List.mem_cons.mp (by simpa [prefList] using hq) with h1 | h1
      · rw [h1]; exact hsub _ h
      · exact hpref q h1
    · simp only [criarSegmentos, srvMkd, if_neg h]
      obtain ⟨hpref, hsub⟩ := ih ((atual ++ "/" ++ p) :: dirs) (atual ++ "/" ++ p)
      refine ⟨?_, fun q hq => hsub q (List.mem_cons_of_mem _ hq)⟩
      intro q hq
      rcases List.mem_cons.mp (by simpa [prefList] using hq) with h1 | h1
      · rw [h1]; exact hsub _ (List.mem_cons_self _ _)
      · exact hpref q h1

lemma criarSegmentos_idem :
    ∀ (partes dirs : List String) (atual : String),
      (∀ q ∈ prefList atual partes, q ∈ dirs) →
      criarSegmentos partes dirs atual =
        (dirs, (prefList atual partes).map Cmd.mkd) := by
  intro partes
  induction partes with
  | nil => intro dirs atual _; simp [criarSegmentos, prefList]
  | cons p ps ih =>
    intro dirs atual hpre
    have hmem : (atual ++ "/" ++ p) ∈ dirs := hpre _ (by simp [prefList])
    simp only [criarSegmentos, srvMkd, if_pos hmem]
    rw [ih dirs (atual ++ "/" ++ p) (fun q hq => hpre q (by simp [prefList, hq]))]
    simp [prefList]

/-- C9 counterexample: after send.py's criar_diretorios_remotos has
provisioned /XML/CTE, an immediately following call with the same path
issues the MKD create command again on every segment (harmlessly answered
error_perm) — refuting the claim that the create command is never issued
on the second call — although the tree is unchanged. -/
theorem c9_counterexample :
    Cmd.mkd "/XML" ∈
        (criarSegmentos ["XML", "CTE"]
          (criarSegmentos ["XML", "CTE"] [] "").1 "").2 ∧
      (criarSegmentos ["XML", "CTE"]
          (criarSegmentos ["XML", "CTE"] [] "").1 "").1 =
        (criarSegmentos ["XML", "CTE"] [] "").1 := by
  decide

/-- C9 (amended): directory provisioning is idempotent in both
implementations — a first call succeeds, and an immediately following
call with the same path succeeds, creates no directory, and leaves the
remote tree unchanged.  In receive.py the second call issues only cwd
commands (entry into each existing segment succeeds, so MKD is never
issued); in send.py the second call issues MKD for every segment again,
each answered by the harmless already-exists error. -/
theorem c9_idempotent_provisioning (partes dirs : List String) (atual : String) :
    (assegurarLista partes dirs atual).2.1 = true ∧
      assegurarLista partes (assegurarLista partes dirs atual).1 atual =
        ((assegurarLista partes dirs atual).1, true,
          (prefList atual partes).map Cmd.cwd) ∧
      (∀ p, Cmd.mkd p ∉ (prefList atual partes).map Cmd.cwd) ∧
      criarSegmentos partes (criarSegmentos partes dirs atual).1 atual =
        ((criarSegmentos partes dirs atual).1,
          (prefList atual partes).map Cmd.mkd) := by
  obtain ⟨hok, hpref, _⟩ := assegurarLista_ok partes dirs atual
  obtain ⟨hprefC, _⟩ := criarSegmentos_super partes dirs atual
  refine ⟨hok, assegurarLista_idem partes _ atual hpref, ?_,
    criarSegmentos_idem partes _ atual hprefC⟩
  intro p hp
  rcases List.mem_map.mp hp with ⟨q, _, hq⟩
  cases hq

theorem c7_amended_stale_handle_closed_witness :
    (garantirConexao (some (Prot.P, true)) false okNenhum).2 =
      Cmd.noop :: Cmd.closeCmd :: Cmd.connect :: Cmd.auth :: Cmd.login ::
        Cmd.pbsz :: (tentarModosTrace okNenhum modosReceive).2 :=
  c7_amended_stale_handle_closed (Prot.P, true) okNenhum

theorem c9_idempotent_provisioning_witness :
    assegurarLista ["XML", "CTE"]
        (assegurarLista ["XML", "CTE"] [] "").1 "" =
      ((assegurarLista ["XML", "CTE"] [] "").1, true,
        (prefList "" ["XML", "CTE"]).map Cmd.cwd) :=
  (c9_idempotent_provisioning ["XML", "CTE"] [] "").2.1

end XmlFtp
